import Mathlib

/-!
Verification of the choropleth data-binding and classification pipeline of the
maplibre-powerbi visual.  The definitions below are a shallow embedding of the
TypeScript sources (src/mapboxUtils.ts, src/datasources/choropleth.ts,
src/layers/choropleth.ts and the Layer base class).  JavaScript scalar values
are modelled by the inductive type `JSVal`; JavaScript numbers are modelled by
rationals (float rounding is out of scope; all inputs exercised by the
theorems are small integers where float and rational arithmetic agree).
-/

/-- Model of a JavaScript scalar value as it flows through the pipeline:
`undefined`, `null`, a finite number, the floating `NaN`, or a string. -/
inductive JSVal where
  | vundef : JSVal
  | vnull : JSVal
  | vnum : ℚ → JSVal
  | vnan : JSVal
  | vstr : String → JSVal
deriving DecidableEq, Repr

/-- JavaScript truthiness: `undefined`, `null`, `NaN`, `0` and `""` are falsy,
everything else is truthy. -/
def jsTruthy : JSVal → Bool
  | .vundef => false
  | .vnull => false
  | .vnan => false
  | .vnum q => q ≠ 0
  | .vstr s => s ≠ ""

/-- JavaScript `ToNumber` coercion, with `none` standing for `NaN`.
Numeric coercion of strings is not modelled (the aggregation and limits code
only ever coerces numbers, `null` and `undefined`). -/
def jsToNumber : JSVal → Option ℚ
  | .vundef => none
  | .vnull => some 0
  | .vnan => none
  | .vnum q => some q
  | .vstr _ => none

/-- JavaScript `toString` on a scalar.  Number formatting is exact for
integers (the only numbers the proofs stringify). -/
def jsToString : JSVal → String
  | .vundef => "undefined"
  | .vnull => "null"
  | .vnan => "NaN"
  | .vnum q => if q.den = 1 then toString q.num else toString q
  | .vstr s => s

/-!
Kernel-reducible rational arithmetic.  Mathlib's `Rat` addition, subtraction,
multiplication and division are irreducible, which blocks `decide` on
concrete pipeline runs; the `q`-prefixed operations below compute the same
values through `mkRat` (which the kernel evaluates) and are proved equal to
the standard operations.
-/

/-- Addition on `ℚ` by cross-multiplied numerators over `mkRat`. -/
def qAdd (a b : ℚ) : ℚ := mkRat (a.num * b.den + b.num * a.den) (a.den * b.den)

/-- Subtraction on `ℚ` by cross-multiplied numerators over `mkRat`. -/
def qSub (a b : ℚ) : ℚ := mkRat (a.num * b.den - b.num * a.den) (a.den * b.den)

/-- Multiplication on `ℚ` over `mkRat`. -/
def qMul (a b : ℚ) : ℚ := mkRat (a.num * b.num) (a.den * b.den)

/-- Build a rational from an integer numerator and integer denominator. -/
def mkRatZ (n d : ℤ) : ℚ := if 0 ≤ d then mkRat n d.toNat else mkRat (-n) (-d).toNat

/-- Division on `ℚ` (zero denominator gives `0`, matching Mathlib's `/`). -/
def qDiv (a b : ℚ) : ℚ := mkRatZ (a.num * b.den) (b.num * a.den)

theorem qAdd_eq (a b : ℚ) : qAdd a b = a + b := by
  have ha : (a.den:ℚ) ≠ 0 := by positivity
  have hb : (b.den:ℚ) ≠ 0 := by positivity
  rw [qAdd, Rat.mkRat_eq_div]
  push_cast
  rw [div_eq_iff (by positivity : ((a.den:ℚ) * b.den) ≠ 0)]
  have h1 : (a.num:ℚ) = a * a.den := (div_eq_iff ha).mp (Rat.num_div_den a)
  have h2 : (b.num:ℚ) = b * b.den := (div_eq_iff hb).mp (Rat.num_div_den b)
  rw [h1, h2]; ring

theorem qSub_eq (a b : ℚ) : qSub a b = a - b := by
  have ha : (a.den:ℚ) ≠ 0 := by positivity
  have hb : (b.den:ℚ) ≠ 0 := by positivity
  rw [qSub, Rat.mkRat_eq_div]
  push_cast
  rw [div_eq_iff (by positivity : ((a.den:ℚ) * b.den) ≠ 0)]
  have h1 : (a.num:ℚ) = a * a.den := (div_eq_iff ha).mp (Rat.num_div_den a)
  have h2 : (b.num:ℚ) = b * b.den := (div_eq_iff hb).mp (Rat.num_div_den b)
  rw [h1, h2]; ring

theorem qMul_eq (a b : ℚ) : qMul a b = a * b := by
  have ha : (a.den:ℚ) ≠ 0 := by positivity
  have hb : (b.den:ℚ) ≠ 0 := by positivity
  rw [qMul, Rat.mkRat_eq_div]
  push_cast
  rw [div_eq_iff (by positivity : ((a.den:ℚ) * b.den) ≠ 0)]
  have h1 : (a.num:ℚ) = a * a.den := (div_eq_iff ha).mp (Rat.num_div_den a)
  have h2 : (b.num:ℚ) = b * b.den := (div_eq_iff hb).mp (Rat.num_div_den b)
  rw [h1, h2]; ring

theorem mkRatZ_eq (n d : ℤ) : mkRatZ n d = (n : ℚ) / (d : ℚ) := by
  rw [mkRatZ]
  split
  · rw [Rat.mkRat_eq_div]
    have h : ((d.toNat:ℕ):ℤ) = d := Int.toNat_of_nonneg (by assumption)
    congr 1
    exact_mod_cast congrArg (fun z : ℤ => (z:ℚ)) h
  · rw [Rat.mkRat_eq_div]
    have h : (((-d).toNat:ℕ):ℤ) = -d := Int.toNat_of_nonneg (by omega)
    have h2 : (((-d).toNat:ℕ):ℚ) = ((-d:ℤ):ℚ) := by
      exact_mod_cast congrArg (fun z : ℤ => (z:ℚ)) h
    rw [h2]
    push_cast
    rw [neg_div_neg_eq]

theorem qDiv_eq (a b : ℚ) : qDiv a b = a / b := by
  rcases eq_or_ne b 0 with hb0 | hb0
  · subst hb0
    simp [qDiv, mkRatZ_eq]
  · have ha : (a.den:ℚ) ≠ 0 := by positivity
    have hb : (b.den:ℚ) ≠ 0 := by positivity
    have hbn : (b.num:ℚ) ≠ 0 := by
      simpa using (Rat.num_ne_zero).mpr hb0
    rw [qDiv, mkRatZ_eq]
    push_cast
    rw [div_eq_div_iff (mul_ne_zero hbn ha) hb0]
    have h1 : (a.num:ℚ) = a * a.den := (div_eq_iff ha).mp (Rat.num_div_den a)
    have h2 : (b.num:ℚ) = b * b.den := (div_eq_iff hb).mp (Rat.num_div_den b)
    rw [h1, h2]; ring

/-- JavaScript `+`: string concatenation when either side is a string,
numeric addition (through `ToNumber`, propagating `NaN`) otherwise. -/
def jsAdd (a b : JSVal) : JSVal :=
  match a, b with
  | .vstr s, _ => .vstr (s ++ jsToString b)
  | _, .vstr t => .vstr (jsToString a ++ t)
  | _, _ =>
    match jsToNumber a, jsToNumber b with
    | some x, some y => .vnum (qAdd x y)
    | _, _ => .vnan

/-- JavaScript `-` on scalars (numeric coercion, `NaN` propagation). -/
def jsSub (a b : JSVal) : JSVal :=
  match jsToNumber a, jsToNumber b with
  | some x, some y => .vnum (qSub x y)
  | _, _ => .vnan

/-- JavaScript `*` on scalars (numeric coercion, `NaN` propagation). -/
def jsMul (a b : JSVal) : JSVal :=
  match jsToNumber a, jsToNumber b with
  | some x, some y => .vnum (qMul x y)
  | _, _ => .vnan

/-- JavaScript `/` on scalars.  Division by zero yields `Infinity`/`NaN` in
JavaScript; both are collapsed to `vnan` here — every division reached by the
theorems has a nonzero divisor. -/
def jsDiv (a b : JSVal) : JSVal :=
  match jsToNumber a, jsToNumber b with
  | some x, some y => if y = 0 then .vnan else .vnum (qDiv x y)
  | _, _ => .vnan

/-- JavaScript `<`: lexicographic on two strings, otherwise numeric after
`ToNumber` coercion with any `NaN` making the comparison false. -/
def jsLt (a b : JSVal) : Bool :=
  match a, b with
  | .vstr s, .vstr t => s < t
  | _, _ =>
    match jsToNumber a, jsToNumber b with
    | some x, some y => x < y
    | _, _ => false

/-- JavaScript `>` is `<` with the operands swapped. -/
def jsGt (a b : JSVal) : Bool := jsLt b a

/-- JavaScript loose equality `==` restricted to the scalar combinations the
pipeline compares: `null`/`undefined` are loosely equal to each other, numbers
compare numerically, strings compare as strings, `NaN` equals nothing.
String-to-number loose coercion is not modelled (never exercised: the compared
arrays are type-homogeneous). -/
def jsLooseEq (a b : JSVal) : Bool :=
  match a, b with
  | .vnull, .vnull => true
  | .vnull, .vundef => true
  | .vundef, .vnull => true
  | .vundef, .vundef => true
  | .vnum x, .vnum y => x = y
  | .vstr s, .vstr t => s = t
  | _, _ => false

/-- A record (one tabular row or one aggregated region record): an assoc list
from field display name to scalar value.  Reading an absent field yields
`undefined`, as in JavaScript. -/
def Row : Type := List (String × JSVal)

instance : DecidableEq Row := by unfold Row; infer_instance

/-- Property read `row[key]`; absent keys give `undefined`.  Rows model
JavaScript objects, whose field names are unique, so the assoc list is
assumed duplicate-free. -/
def rowGet : Row → String → JSVal
  | [], _ => .vundef
  | (k, v) :: rest, key => if k = key then v else rowGet rest key

/-! ### mapboxUtils.ts : getClassCount, positionInArray / pushIfNotExist, getLimits -/

/-- Embedding of `getClassCount` (src/mapboxUtils.ts:50-57):
`Math.min(values.length, MAX_BOUND_COUNT) - 1` with `MAX_BOUND_COUNT = 6`.
The result is an integer and is `-1` on the empty list. -/
def getClassCount (values : List ℚ) : ℤ :=
  min (values.length : ℤ) 6 - 1

/-- Embedding of the `found` scan of `positionInArray`
(src/mapboxUtils.ts:82-93).  The loop runs `i` from `0` to `array.length`
inclusive, so it also compares the out-of-bounds read `array[array.length]`
(which is `undefined`) against the element with loose equality; hence an
element loosely equal to `undefined` is always "found". -/
def positionFound (array : List JSVal) (element : JSVal) : Bool :=
  array.any (fun x => jsLooseEq x element) || jsLooseEq .vundef element

/-- Embedding of `pushIfNotExist` (src/mapboxUtils.ts:95-99):
`positionInArray` returns `-1` exactly when the element was not found
(it returns `undefined` when found), so the element is appended iff it is
not yet present under loose equality. -/
def pushIfNotExist (array : List JSVal) (element : JSVal) : List JSVal :=
  if positionFound array element then array else array ++ [element]

/-- The `Limits` record of src/mapboxUtils.ts:14-18.  `min` and `max` start
as `null` and remain `JSVal`s throughout the fold. -/
structure Limits where
  min : JSVal
  max : JSVal
  values : List JSVal
deriving DecidableEq, Repr

/-- One iteration of the running min/max/values fold shared by both branches
of `getLimits` (src/mapboxUtils.ts:147-165), applied to an already-kept value:
`if (!min || value < min) min = value; if (!max || value > max) max = value;
pushIfNotExist(values, value)`.  Note the falsy guard `!min`: a running
min/max of `0` counts as unset and is overwritten. -/
def limitsValStep (s : Limits) (v : JSVal) : Limits :=
  { min := if !jsTruthy s.min || jsLt v s.min then v else s.min,
    max := if !jsTruthy s.max || jsGt v s.max then v else s.max,
    values := pushIfNotExist s.values v }

/-- The fold of `limitsValStep` over a list of kept values. -/
def limitsFold (vs : List JSVal) (s : Limits) : Limits :=
  vs.foldl limitsValStep s

/-- The kept field values of the non-geojson branch of `getLimits`
(src/mapboxUtils.ts:158-165): a row contributes `f[myproperty]` iff it is
neither `undefined` nor `null`. -/
def keptValues (data : List Row) (prop : String) : List JSVal :=
  data.filterMap (fun r =>
    let v := rowGet r prop
    if v = .vundef ∨ v = .vnull then none else some v)

/-- The kept field values of the geojson branch of `getLimits`
(src/mapboxUtils.ts:147-154): a property contributes iff it is truthy or is
exactly the number `0` (`currentProperties[p] || currentProperties[p] === 0`). -/
def keptValuesGeo (data : List Row) (prop : String) : List JSVal :=
  data.filterMap (fun r =>
    let v := rowGet r prop
    if jsTruthy v ∨ v = .vnum 0 then some v else none)

/-- The final degenerate-equal rule of `getLimits` (src/mapboxUtils.ts:169-173):
`if (min && min.toString() !== min && min == max) min = min - 1` — the
decrement requires a truthy `min` (so `0` and `null` are exempt), a
non-string `min` (`toString` is strictly unequal to the value except for
strings), and loose equality of `min` and `max`. -/
def degenerateAdjust (r : Limits) : Limits :=
  if jsTruthy r.min
      && (match r.min with | .vstr _ => false | _ => true)
      && jsLooseEq r.min r.max then
    { r with min := jsSub r.min (.vnum 1) }
  else r

/-- Embedding of `getLimits` (src/mapboxUtils.ts:138-180).  The branch on
`data[0]['type']` selects the geojson walk (via `propEach`, which visits the
features' property bags in order) or the plain-record walk; both run the same
running min/max/distinct-values fold over the values they keep, followed by
the degenerate-equal adjustment. -/
def getLimits (data : List Row) (prop : String) : Limits :=
  let init : Limits := { min := .vnull, max := .vnull, values := [] }
  degenerateAdjust
    (match data with
    | [] => init
    | d0 :: _ =>
      if prop = "" then init
      else if jsTruthy (rowGet d0 "type") then limitsFold (keptValuesGeo data prop) init
      else limitsFold (keptValues data prop) init)

/-! ### Scratch checks for getLimits (concrete evaluations) -/

example : getLimits [[("v", .vnum 5)], [("v", .vnum 5)], [("v", .vnum 5)]] "v"
    = { min := .vnum 4, max := .vnum 5, values := [.vnum 5] } := by decide

example : getLimits [[("v", .vnum 0)], [("v", .vnum 5)]] "v"
    = { min := .vnum 4, max := .vnum 5, values := [.vnum 0, .vnum 5] } := by decide

example : getLimits [[("v", .vnum 0)]] "v"
    = { min := .vnum 0, max := .vnum 0, values := [.vnum 0] } := by decide

/-! ### datasources/choropleth.ts : the region aggregator of Choropleth.update -/

/-- The part of a Power BI column descriptor read by the aggregation loop of
`Choropleth.update` (src/datasources/choropleth.ts:71-127): display name, the
roles that exempt a column from aggregation, and numeric-ness of its type. -/
structure Column where
  displayName : String
  isLocation : Bool
  isLatitude : Bool
  isLongitude : Bool
  numeric : Bool
deriving DecidableEq, Repr

/-- Distinct keys of a JavaScript object in insertion (property-creation)
order: duplicates collapse onto their first occurrence.  This is only the
creation-order component of `Object.keys` enumeration; `objectKeys` below
applies the integer-like-key reordering mandated by ECMAScript on top of
it. -/
def insertionKeysAux (seen : List String) : List String → List String
  | [] => []
  | k :: ks =>
    if k ∈ seen then insertionKeysAux seen ks
    else k :: insertionKeysAux (k :: seen) ks

/-- The decimal value of a digit character, `none` for non-digits. -/
def digitVal (c : Char) : Option ℕ :=
  if 48 ≤ c.toNat ∧ c.toNat ≤ 57 then some (c.toNat - 48) else none

/-- The value of a run of decimal digit characters, `none` if any character
is not a digit. -/
def decValueAux (acc : ℕ) : List Char → Option ℕ
  | [] => some acc
  | c :: cs =>
    match digitVal c with
    | some d => decValueAux (acc * 10 + d) cs
    | none => none

/-- ECMAScript array-index test for a property key: the key is the canonical
decimal numeral (nonempty, no leading zero except `"0"` itself) of an
integer `n` with `0 ≤ n < 2^32 - 1`.  Such keys are enumerated before every
other string key, in ascending numeric order. -/
def arrayIndexKey (s : String) : Option ℕ :=
  match s.data with
  | [] => none
  | c :: cs =>
    if c = '0' ∧ cs ≠ [] then none
    else
      match decValueAux 0 (c :: cs) with
      | some n => if n < 2 ^ 32 - 1 then some n else none
      | none => none

/-- Insert a `(numeric value, key)` pair into a list sorted ascending by the
numeric value. -/
def insertSortedIndex (p : ℕ × String) : List (ℕ × String) → List (ℕ × String)
  | [] => [p]
  | q :: qs => if p.1 ≤ q.1 then p :: q :: qs else q :: insertSortedIndex p qs

/-- Insertion sort of `(numeric value, key)` pairs, ascending by numeric
value (the keys are distinct canonical numerals, so values never tie). -/
def sortIndexKeys : List (ℕ × String) → List (ℕ × String)
  | [] => []
  | p :: ps => insertSortedIndex p (sortIndexKeys ps)

/-- Model of `Object.keys` over the keys inserted in `l` (duplicates
collapse onto their first insertion), per ECMAScript
OrdinaryOwnPropertyKeys: array-index keys first in ascending numeric order,
then the remaining string keys in insertion order.  This models iteration
over `Object.keys(rawValues)` / `Object.keys(dataByLocation)`
(src/datasources/choropleth.ts:83,129). -/
def objectKeys (l : List String) : List String :=
  let distinct := insertionKeysAux [] l
  (sortIndexKeys (distinct.filterMap (fun k =>
      (arrayIndexKey k).map (fun n => (n, k))))).map (fun p => p.2)
    ++ distinct.filter (fun k => arrayIndexKey k = none)

/-- The location key a row is grouped under: JavaScript object keys are
strings, so `acc[curr[locationCol]]` stringifies the location value. -/
def locKey (locCol : String) (r : Row) : String :=
  jsToString (rowGet r locCol)

/-- The grouped raw values of one column for one location key: the reduce of
src/datasources/choropleth.ts:73-80 pushes `curr[column.displayName]` for
every row of the group, nulls and undefineds included. -/
def groupValues (rows : List Row) (locCol col : String) (key : String) : List JSVal :=
  (rows.filter (fun r => locKey locCol r = key)).map (fun r => rowGet r col)

/-- The aggregation switch of src/datasources/choropleth.ts:100-125, applied
to the grouped values of a numeric non-location column:
Count is the group size, Sum folds JavaScript `+` from `0`, Average divides
that sum by the group size when it is nonzero (else `0`), Minimum/Maximum
fold `(a, b) => a && (a < b || !b) ? a : b` (resp. `>`) from `null`, and any
other aggregation takes the first value (or `0` for an empty group). -/
def aggregateValues (aggregation : String) (values : List JSVal) : JSVal :=
  if aggregation = "Count" then .vnum values.length
  else if aggregation = "Sum" then values.foldl jsAdd (.vnum 0)
  else if aggregation = "Average" then
    if values.length ≠ 0 then jsDiv (values.foldl jsAdd (.vnum 0)) (.vnum values.length)
    else .vnum 0
  else if aggregation = "Minimum" then
    values.foldl (fun a b => if jsTruthy a ∧ (jsLt a b ∨ ¬ jsTruthy b) then a else b) .vnull
  else if aggregation = "Maximum" then
    values.foldl (fun a b => if jsTruthy a ∧ (jsGt a b ∨ ¬ jsTruthy b) then a else b) .vnull
  else match values with
    | [] => .vnum 0
    | v :: _ => v

/-- Column dispatch of src/datasources/choropleth.ts:89-96: location,
latitude, longitude and non-numeric columns take the first grouped value
(no aggregation), everything else goes through the aggregation switch. -/
def aggregateColumn (aggregation : String) (col : Column) (values : List JSVal) : JSVal :=
  if col.isLocation ∨ col.isLatitude ∨ col.isLongitude ∨ ¬ col.numeric then
    match values with
    | [] => .vnum 0
    | v :: _ => v
  else aggregateValues aggregation values

/-- The region aggregator of `Choropleth.update`
(src/datasources/choropleth.ts:61-129): group the feature property bags by
stringified location key, aggregate each column per group, and emit one
record per distinct location key in `Object.keys` enumeration order
(`this.choroplethData = Object.keys(dataByLocation).map(...)`): integer-like
keys first in ascending numeric order, then the remaining keys in first-seen
order. -/
def choroplethUpdate (aggregation : String) (locCol : String) (columns : List Column)
    (rows : List Row) : List Row :=
  (objectKeys (rows.map (locKey locCol))).map (fun key =>
    columns.map (fun col =>
      (col.displayName, aggregateColumn aggregation col (groupValues rows locCol col.displayName key))))

example : objectKeys ["15", "3", "A"] = ["3", "15", "A"] := by decide

example : objectKeys ["A", "B", "A"] = ["A", "B"] := by decide

/-! ### Scratch checks for the aggregator -/

example :
    choroplethUpdate "Average" "loc"
      [{ displayName := "loc", isLocation := true, isLatitude := false, isLongitude := false, numeric := false },
       { displayName := "v", isLocation := false, isLatitude := false, isLongitude := false, numeric := true }]
      [[("loc", .vstr "A"), ("v", .vnum 10)],
       [("loc", .vstr "A"), ("v", .vnum 20)],
       [("loc", .vstr "B"), ("v", .vnum 5)]]
    = [[("loc", .vstr "A"), ("v", .vnum 15)],
       [("loc", .vstr "B"), ("v", .vnum 5)]] := by decide

example :
    choroplethUpdate "Average" "loc"
      [{ displayName := "loc", isLocation := true, isLatitude := false, isLongitude := false, numeric := false },
       { displayName := "v", isLocation := false, isLatitude := false, isLongitude := false, numeric := true }]
      [[("loc", .vstr "A"), ("v", .vnum 10)],
       [("loc", .vstr "A"), ("v", .vnull)]]
    = [[("loc", .vstr "A"), ("v", .vnum 5)]] := by decide

example :
    choroplethUpdate "Average" "loc"
      [{ displayName := "loc", isLocation := true, isLatitude := false, isLongitude := false, numeric := false },
       { displayName := "v", isLocation := false, isLatitude := false, isLongitude := false, numeric := true }]
      [[("loc", .vstr "A"), ("v", .vnull)]]
    = [[("loc", .vstr "A"), ("v", .vnum 0)]] := by decide

/-! ### mapboxUtils.ts / layers : classification methods, breaks, color stops -/

/-- The `ClassificationMethod` enum of src/mapboxUtils.ts:7-12. -/
inductive ClassificationMethod where
  | Quantile
  | Equidistant
  | Logarithmic
  | NaturalBreaks
deriving DecidableEq, Repr

/-- Minimum of two rationals by an explicit comparison (kernel-reducible;
equal to Mathlib's `min`). -/
def qMin (a b : ℚ) : ℚ := if a ≤ b then a else b

/-- Maximum of two rationals by an explicit comparison (kernel-reducible;
equal to Mathlib's `max`). -/
def qMax (a b : ℚ) : ℚ := if a ≤ b then b else a

theorem qMin_eq (a b : ℚ) : qMin a b = min a b := (min_def a b).symm

theorem qMax_eq (a b : ℚ) : qMax a b = max a b := by
  rw [qMax, max_def]

/-- Embedding of `getBreaks` (src/mapboxUtils.ts:59-80), which delegates to
the external `chroma.limits`.  The Equidistant mode is implemented exactly as
chroma computes it (`classCount + 1` points evenly spaced from the minimum to
the maximum of the values).  The Quantile / Logarithmic / NaturalBreaks modes
are floating-point library numerics; they are left as the identity on the
value list — the choropleth layer always classifies with Equidistant (see
`choroplethGetClassificationMethod`) and no theorem below depends on the
other modes. -/
def getBreaks (values : List ℚ) (method : ClassificationMethod) (classCount : ℤ) : List ℚ :=
  match method with
  | .Equidistant =>
    match values with
    | [] => []
    | v :: vs =>
      let mn := vs.foldl qMin v
      let mx := vs.foldl qMax v
      let n := classCount.toNat
      if n = 0 then []
      else (List.range (n + 1)).map (fun i => qAdd mn (qDiv (qMul (qSub mx mn) (i : ℚ)) (n : ℚ)))
  | _ => values

/-- One entry of the `ColorStops` sequence (src/legendControl.ts): a stop
value (a number on the gradient path, a string on the categorical path) and
a color string. -/
structure ColorStop where
  colorStop : JSVal
  color : String
deriving DecidableEq, Repr

/-- Model of the external `chroma.scale(colorInterval).colors(n)`: it returns
exactly `n` colors interpolated across `colorInterval`.  The interpolation is
floating-point library code, so the colors are represented symbolically; the
theorems below rely only on the count and on the scale inputs. -/
def chromaScaleColors (colorInterval : List String) (n : ℕ) : List String :=
  (List.range n).map (fun i =>
    "chroma-scale(" ++ String.intercalate "," colorInterval ++ ")#" ++ toString i)

/-- Embedding of `Layer.mapValuesToColorStops` (layers, Layer base class):
empty values give no stops; a single value gives exactly one stop at that
value colored with `colorInterval[0]` (no scale call); otherwise the domain
is `getBreaks(values, method, classCount)` when `classCount` is truthy
(nonzero) and the raw values otherwise, each domain point paired with the
scale color of the same index. -/
def mapValuesToColorStops (colorInterval : List String) (method : ClassificationMethod)
    (classCount : ℤ) (values : List ℚ) : List ColorStop :=
  match values with
  | [] => []
  | [v] => [{ colorStop := .vnum v, color := colorInterval.headD "undefined" }]
  | _ =>
    let domain := if classCount ≠ 0 then getBreaks values method classCount else values
    (domain.zip (chromaScaleColors colorInterval domain.length)).map
      (fun p => { colorStop := .vnum p.1, color := p.2 })

/-- Embedding of `filterValues` (src/mapboxUtils.ts:119-136): keep the values
within the provided bounds; a `null` bound leaves that side unbounded and
with both bounds `null` the list is returned unchanged. -/
def filterValues (values : List ℚ) (minValue maxValue : Option ℚ) : List ℚ :=
  match minValue, maxValue with
  | some mn, some mx => values.filter (fun v => mn ≤ v ∧ v ≤ mx)
  | none, some mx => values.filter (fun v => v ≤ mx)
  | some mn, none => values.filter (fun v => mn ≤ v)
  | none, none => values

/-- JavaScript `>> 1` on a (small) integer: arithmetic shift right, i.e.
floor division by two. -/
def jsShr1 (n : ℤ) : ℤ := Int.fdiv n 2

/-- The gradient-relevant part of the settings object consumed by
`Layer.generateColorStops`: the `instanceof ClusterSettings` discrimination,
the diverging flag, the optional min/mid/max clamps and the three scale
colors. -/
structure GradientSettings where
  isCluster : Bool
  diverging : Bool
  minValue : Option ℚ
  midValue : Option ℚ
  maxValue : Option ℚ
  minColor : String
  midColor : String
  maxColor : String
deriving DecidableEq, Repr

/-- Embedding of `Layer.generateColorStops` (Layer base class), with the
dynamically dispatched `this.getClassificationMethod()` made an explicit
first argument.  The source reads only the `values` field of the color
`Limits` here; the values are taken numeric (string-valued categorical
domains run the same `map` with `toString` the identity).
Non-gradient: one palette-colored stop per distinct value.  Gradient
non-diverging (or cluster settings): a two-color scale over the raw values.
Diverging with a `midValue`: the filtered values are split around the mid
(clamps appended, the mid pushed onto both halves), each half classified
with half its class count over a two-color sub-scale, and the duplicate mid
stop dropped from the lower half.  Diverging without a `midValue`: clamps
appended to the filtered values, one three-color scale. -/
def generateColorStops (method : ClassificationMethod) (settings : GradientSettings)
    (isGradient : Bool) (colorLimitsValues : List ℚ) (palette : String → String) :
    List ColorStop :=
  if ¬ isGradient then
    colorLimitsValues.map (fun value =>
      let colorStop := jsToString (.vnum value)
      { colorStop := .vstr colorStop, color := palette colorStop })
  else if settings.isCluster ∨ ¬ settings.diverging then
    mapValuesToColorStops [settings.minColor, settings.maxColor] method
      (getClassCount colorLimitsValues) colorLimitsValues
  else
    let filteredValues := filterValues colorLimitsValues settings.minValue settings.maxValue
    match settings.midValue with
    | some midValue =>
      let lowerHalf :=
        (match settings.minValue with | some mn => [mn] | none => []) ++
          filteredValues.filter (fun value => value < midValue) ++ [midValue]
      let upperHalf :=
        midValue ::
          (filteredValues.filter (fun value => ¬ value < midValue) ++
            (match settings.maxValue with | some mx => [mx] | none => []))
      let lowerHalfClassCount := jsShr1 (getClassCount lowerHalf)
      let upperHalfClassCount := jsShr1 (getClassCount upperHalf)
      let lowerColorStops := mapValuesToColorStops [settings.minColor, settings.midColor]
        method lowerHalfClassCount lowerHalf
      let upperColorStops := mapValuesToColorStops [settings.midColor, settings.maxColor]
        method upperHalfClassCount upperHalf
      lowerColorStops.dropLast ++ upperColorStops
    | none =>
      let fv := filteredValues ++
        (match settings.minValue with | some mn => [mn] | none => []) ++
        (match settings.maxValue with | some mx => [mx] | none => [])
      mapValuesToColorStops [settings.minColor, settings.midColor, settings.maxColor]
        method (getClassCount fv) fv

/-- The Layer base class default classification method (Layer base,
`getClassificationMethod`): Quantile. -/
def layerGetClassificationMethod : ClassificationMethod := .Quantile

/-- The Choropleth override (src/layers/choropleth.ts:352-354): always
Equidistant, with no property-pane input. -/
def choroplethGetClassificationMethod : ClassificationMethod := .Equidistant

/-- Color-stop generation as the choropleth layer invokes it
(src/layers/choropleth.ts:373): `this.generateColorStops(...)` dispatches to
`choroplethGetClassificationMethod`. -/
def choroplethGenerateColorStops (settings : GradientSettings) (isGradient : Bool)
    (colorLimitsValues : List ℚ) (palette : String → String) : List ColorStop :=
  generateColorStops choroplethGetClassificationMethod settings isGradient
    colorLimitsValues palette

example :
    (generateColorStops .Equidistant
      { isCluster := false, diverging := true, minValue := none, midValue := some 10,
        maxValue := none, minColor := "mincol", midColor := "midcol", maxColor := "maxcol" }
      true [5] (fun _ => "palette")).length = 2 := by decide

example :
    generateColorStops .Equidistant
      { isCluster := false, diverging := false, minValue := none, midValue := none,
        maxValue := none, minColor := "mincol", midColor := "midcol", maxColor := "maxcol" }
      true [5] (fun _ => "palette")
    = [{ colorStop := .vnum 5, color := "mincol" }] := by decide

/-! ### layers/choropleth.ts : preprocessData and the applySettings binding -/

/-- One entry of the list `Choropleth.preprocessData` builds
(src/layers/choropleth.ts:342-346): the region's location value, its computed
color and its raw size value (`null` when no size column is bound). -/
structure PreStop where
  location : JSVal
  color : JSVal
  size : JSVal
deriving DecidableEq, Repr

/-- The color computed for a row (src/layers/choropleth.ts:326):
`getColorOfLocation` of the row's color-field value when a color column is
bound (`colorCol != null`), `null` otherwise. -/
def rowColor (colorCol : Option String) (getColorOfLocation : JSVal → JSVal) (row : Row) : JSVal :=
  match colorCol with
  | some c => getColorOfLocation (rowGet row c)
  | none => .vnull

/-- The row loop of `Choropleth.preprocessData` (src/layers/choropleth.ts:324-347)
with the set of already-seen stringified locations as an accumulator.
A row with a falsy location or falsy computed color is skipped.  A duplicate
stringified location makes the source `return []`, abandoning every stop
already collected; that abort is the `none` result here. -/
def preprocessGo (locCol : String) (colorCol : Option String) (sizeCol : String)
    (getColorOfLocation : JSVal → JSVal) (seen : List String) :
    List Row → Option (List PreStop)
  | [] => some []
  | row :: rest =>
    let location := rowGet row locCol
    let color := rowColor colorCol getColorOfLocation row
    if ¬ jsTruthy location ∨ ¬ jsTruthy color then
      preprocessGo locCol colorCol sizeCol getColorOfLocation seen rest
    else
      let locationStr := jsToString location
      if locationStr ∈ seen then none
      else
        let size := if sizeCol ≠ "" then rowGet row sizeCol else .vnull
        (preprocessGo locCol colorCol sizeCol getColorOfLocation (locationStr :: seen) rest).map
          (fun tail => { location := location, color := color, size := size } :: tail)

/-- Embedding of `Choropleth.preprocessData` (src/layers/choropleth.ts:317-350).
The duplicate-stop abort (`return []`) and the all-rows-filtered outcome both
produce the empty array, exactly as in the source. -/
def preprocessData (locCol : String) (colorCol : Option String) (sizeCol : String)
    (getColorOfLocation : JSVal → JSVal) (choroplethData : List Row) : List PreStop :=
  (preprocessGo locCol colorCol sizeCol getColorOfLocation [] choroplethData).getD []

/-- Embedding of `Choropleth.sizeInterpolate` (src/layers/choropleth.ts:241-247):
`null` sizes map to `0`, otherwise
`baseHeight + (size - min) * (height - baseHeight) / (max - min)` in
JavaScript arithmetic. -/
def sizeInterpolate (sizeLimits : Limits) (baseHeight height : ℚ) (size : JSVal) : JSVal :=
  if size = .vnull then .vnum 0
  else
    jsAdd (.vnum baseHeight)
      (jsDiv (jsMul (jsSub size sizeLimits.min) (.vnum (qSub height baseHeight)))
        (jsSub sizeLimits.max sizeLimits.min))

/-- A fill color assignment pushed to the map by `Choropleth.applySettings`:
either the categorical data-join expression
`(type, property, default, stops)` of src/layers/choropleth.ts:383, or the
flat fallback color of src/layers/choropleth.ts:400-401. -/
inductive FillPaint where
  | categorical (property : String) (defaultColor : String) (stops : List (JSVal × String))
  | flat (color : String)
deriving DecidableEq, Repr

/-- The extrusion-height assignment of src/layers/choropleth.ts:386: a
categorical data-join when a size column is bound, a constant otherwise. -/
inductive SizeAssignment where
  | categorical (property : String) (defaultSize : ℚ) (stops : List (JSVal × JSVal))
  | constant (h : ℚ)
deriving DecidableEq, Repr

/-- What the display branch of `Choropleth.applySettings` pushes to the map:
the fill color of the fill and extrusion layers, the extrusion sizes, and the
layer filter (`none` components are left untouched by that cycle). -/
structure BindResult where
  fillColor : FillPaint
  sizes : Option SizeAssignment
  filterExpr : Option (List JSVal)
deriving DecidableEq, Repr

/-- JavaScript truthiness of an array value: every object is truthy, the
empty array included.  `preprocessData` always returns an array, so the
`if (preprocessedData)` guard of src/layers/choropleth.ts:378 always takes
the then-branch. -/
def jsArrayTruthy (_ : List PreStop) : Bool := true

/-- The `HeightMultiplier` constant of src/layers/choropleth.ts:31. -/
def heightMultiplier : ℚ := 100

/-- Embedding of the data-binding fragment of `Choropleth.applySettings`
(src/layers/choropleth.ts:376-402), for a displayed layer:
preprocess the aggregated records, then — since an array is always truthy —
build the categorical color stops (default `rgba(0,0,0,0)`), the size stops
(`sizeInterpolate * HeightMultiplier` per row when a size column is bound,
else the constant `height * HeightMultiplier`), and the `['in', property,
...locations]` filter; the `else` branch painting the flat `rgb(0, 0, 0)`
runs only if `preprocessedData` were falsy. -/
def applySettingsBind (property : String) (locCol : String) (colorCol : Option String)
    (sizeCol : String) (getColorOfLocation : JSVal → JSVal) (sizeLimits : Limits)
    (baseHeight height : ℚ) (choroplethData : List Row) : BindResult :=
  let preprocessedData := preprocessData locCol colorCol sizeCol getColorOfLocation choroplethData
  if jsArrayTruthy preprocessedData then
    { fillColor := .categorical property "rgba(0,0,0,0)"
        (preprocessedData.map (fun s => (s.location, jsToString s.color))),
      sizes := some (if sizeCol ≠ "" then
          .categorical property 0
            (preprocessedData.map (fun s =>
              (s.location, jsMul (sizeInterpolate sizeLimits baseHeight height s.size)
                (.vnum heightMultiplier))))
        else .constant (qMul height heightMultiplier)),
      filterExpr := some (.vstr "in" :: .vstr property ::
        preprocessedData.map (fun s => s.location)) }
  else
    { fillColor := .flat "rgb(0, 0, 0)", sizes := none, filterExpr := none }

example :
    applySettingsBind "p" "loc" (some "c") "" (fun v => v)
      { min := .vnull, max := .vnull, values := [] } 0 0
      [[("loc", .vstr "A"), ("c", .vnum 1)], [("loc", .vstr "A"), ("c", .vnum 2)]]
    = { fillColor := .categorical "p" "rgba(0,0,0,0)" [],
        sizes := some (.constant 0),
        filterExpr := some [.vstr "in", .vstr "p"] } := by decide

example :
    preprocessData "loc" (some "c") "" (fun v => v)
      [[("loc", .vstr "A"), ("c", .vnum 1)],
       [("loc", .vnull), ("c", .vnum 3)],
       [("loc", .vstr "B"), ("c", .vnum 2)]]
    = [{ location := .vstr "A", color := .vnum 1, size := .vnull },
       { location := .vstr "B", color := .vnum 2, size := .vnull }] := by decide

/-! ### datasources/choropleth.ts : the bounding-box resolution protocol -/

/-- A bounding box `[west, south, east, north]`. -/
def BBox : Type := ℚ × ℚ × ℚ × ℚ

instance : DecidableEq BBox := by unfold BBox; infer_instance

instance : Repr BBox := by unfold BBox; infer_instance

/-- The `BBOX_TIMEOUT` constant (src/datasources/choropleth.ts:13), in
milliseconds. -/
def bboxTimeout : ℕ := 1500

/-- JavaScript `==` between `this.bounds` (the fresh result of
`bboxCache.getBBox`) and `currentBounds` (`null`, or a fresh `.slice()` copy
of the previous box).  Arrays compare by reference and the copy is a new
object, so two non-null boxes are never equal here; only `null == null`
holds. -/
def jsBoundsEq : Option BBox → Option BBox → Bool
  | none, none => true
  | _, _ => false

/-- The closure state of one protocol instance inside `Choropleth.update`
(src/datasources/choropleth.ts:149-202): the current `this.bounds`, the
`in1stRound` flag, which callbacks are registered (`sourcedata` listener,
the 500ms `setInterval` poll, the `zoomend` listener), and the list of
`visual.updateZoom` invocations with the `this.bounds` in force at each
call. -/
structure BBoxProtoState where
  bounds : Option BBox
  in1stRound : Bool
  sourcedataOn : Bool
  intervalOn : Bool
  zoomendOn : Bool
  zoomCalls : List (Option BBox)
deriving DecidableEq, Repr

/-- The kinds of events that can invoke the `sourceLoaded` handler: a
`sourcedata` event for this source, a tick of the 500ms interval timer
(which forges an event with this source's id), or a `zoomend` event.  All
three pass the handler's `e.sourceId == this.ID || e.type == 'zoomend'`
guard. -/
inductive BBoxEvent where
  | sourcedata
  | timerTick
  | zoomend
deriving DecidableEq, Repr

/-- The body of the `sourceLoaded` handler (src/datasources/choropleth.ts:153-193)
at elapsed time `t` (ms since the protocol's `start`), when the geometry
query `bboxCache.getBBox(featureNames)` returns `q`:
save `currentBounds` (a copy), overwrite `this.bounds` with `q`, and
- if unchanged (`==`, so only both-null) and within the timeout: do nothing
  more (wait);
- if unchanged past the timeout in the first round: deregister `sourcedata`,
  clear the interval, fall back to `source.bounds`, zoom once, and listen
  for `zoomend`;
- if unchanged past the timeout in the second round: deregister everything
  and stay on the fallback bounds;
- if changed: deregister everything and zoom once with the new bounds. -/
def bboxStep (sourceBounds : Option BBox) (s : BBoxProtoState) (t : ℕ) (q : Option BBox) :
    BBoxProtoState :=
  let currentBounds := s.bounds
  if jsBoundsEq q currentBounds then
    if t > bboxTimeout then
      if s.in1stRound then
        { bounds := sourceBounds, in1stRound := false, sourcedataOn := false,
          intervalOn := false, zoomendOn := true,
          zoomCalls := s.zoomCalls ++ [sourceBounds] }
      else
        { bounds := q, in1stRound := s.in1stRound, sourcedataOn := false,
          intervalOn := false, zoomendOn := false, zoomCalls := s.zoomCalls }
    else
      { s with bounds := q }
  else
    { bounds := q, in1stRound := s.in1stRound, sourcedataOn := false,
      intervalOn := false, zoomendOn := false, zoomCalls := s.zoomCalls ++ [q] }

/-- Whether an event reaches the handler: `sourcedata` events only while the
`sourcedata` listener is registered, interval ticks only while the interval
is alive, `zoomend` events only while the `zoomend` listener is registered. -/
def bboxDelivered (s : BBoxProtoState) : BBoxEvent → Bool
  | .sourcedata => s.sourcedataOn
  | .timerTick => s.intervalOn
  | .zoomend => s.zoomendOn

/-- Run the protocol over a sequence of `(event kind, elapsed ms, query
result)` triples, ignoring events whose callback is not registered. -/
def runBBoxProtocol (sourceBounds : Option BBox) (s : BBoxProtoState)
    (events : List (BBoxEvent × ℕ × Option BBox)) : BBoxProtoState :=
  events.foldl (fun st ev =>
    if bboxDelivered st ev.1 then bboxStep sourceBounds st ev.2.1 ev.2.2 else st) s

/-- The protocol state right after the initial registration in
`Choropleth.update` (src/datasources/choropleth.ts:195-201): the initial
`getBBox` returned `null` (source still loading), so `this.bounds` is null,
the `sourcedata` listener and the 500ms poll are registered, and no zoom has
happened. -/
def initialBBoxState : BBoxProtoState :=
  { bounds := none, in1stRound := true, sourcedataOn := true, intervalOn := true,
    zoomendOn := false, zoomCalls := [] }

example :
    runBBoxProtocol (some (0, 0, 10, 10)) initialBBoxState
      [(.timerTick, 500, none), (.timerTick, 1000, none), (.timerTick, 1500, none),
       (.timerTick, 2000, none), (.timerTick, 2500, none)]
    = { bounds := some (0, 0, 10, 10), in1stRound := false, sourcedataOn := false,
        intervalOn := false, zoomendOn := true,
        zoomCalls := [some (0, 0, 10, 10)] } := by decide

/-! ## Theorems for the specification claims -/

/-- Claim C7: `getClassCount(values)` equals `min(values.length, 6) - 1` for
every input list, and in particular returns `-1, 0, 1, 2, 3, 4, 5, 5` for
lists of length `0, 1, 2, 3, 4, 5, 6, 7`, clamped at `5` from six values
onward. -/
theorem c7_getClassCount_min_clamp :
    (∀ values : List ℚ, getClassCount values = min (values.length : ℤ) 6 - 1) ∧
    getClassCount [] = -1 ∧
    getClassCount (List.replicate 1 0) = 0 ∧
    getClassCount (List.replicate 2 0) = 1 ∧
    getClassCount (List.replicate 3 0) = 2 ∧
    getClassCount (List.replicate 4 0) = 3 ∧
    getClassCount (List.replicate 5 0) = 4 ∧
    getClassCount (List.replicate 6 0) = 5 ∧
    getClassCount (List.replicate 7 0) = 5 := by
  refine ⟨fun values => rfl, ?_, ?_, ?_, ?_, ?_, ?_, ?_, ?_⟩ <;> decide

/-- Claim C9: the choropleth layer's classification method is the constant
Equidistant — `Choropleth.getClassificationMethod` ignores every setting and
overrides the Layer base default of Quantile, so every choropleth color-stop
computation runs `generateColorStops` with Equidistant. -/
theorem c9_choropleth_classification_is_equidistant :
    choroplethGetClassificationMethod = ClassificationMethod.Equidistant ∧
    layerGetClassificationMethod = ClassificationMethod.Quantile ∧
    choroplethGetClassificationMethod ≠ layerGetClassificationMethod ∧
    ∀ (settings : GradientSettings) (isGradient : Bool) (vals : List ℚ)
      (palette : String → String),
      choroplethGenerateColorStops settings isGradient vals palette =
        generateColorStops ClassificationMethod.Equidistant settings isGradient vals palette := by
  exact ⟨rfl, rfl, by decide, fun _ _ _ _ => rfl⟩

/-- Claim C1 (code bug): on duplicate aggregation keys `preprocessData`
returns the empty array, so no partial stop reaches the map; but since every
array is truthy, `applySettings` still takes its normal branch and pushes a
categorical fill-color expression with an empty stop list and transparent
default — the flat neutral `rgb(0, 0, 0)` fallback branch is unreachable.
Evaluated here on two rows aggregating to the same key `"A"`. -/
theorem c1_duplicate_stop_fallback_unreachable :
    applySettingsBind "p" "loc" (some "c") "" (fun v => v)
        { min := .vnull, max := .vnull, values := [] } 0 0
        [[("loc", .vstr "A"), ("c", .vnum 1)], [("loc", .vstr "A"), ("c", .vnum 2)]]
      = { fillColor := .categorical "p" "rgba(0,0,0,0)" [],
          sizes := some (.constant 0),
          filterExpr := some [.vstr "in", .vstr "p"] } ∧
    preprocessData "loc" (some "c") "" (fun v => v)
        [[("loc", .vstr "A"), ("c", .vnum 1)], [("loc", .vstr "A"), ("c", .vnum 2)]] = [] ∧
    (applySettingsBind "p" "loc" (some "c") "" (fun v => v)
        { min := .vnull, max := .vnull, values := [] } 0 0
        [[("loc", .vstr "A"), ("c", .vnum 1)], [("loc", .vstr "A"), ("c", .vnum 2)]]).fillColor
      ≠ FillPaint.flat "rgb(0, 0, 0)" := by
  refine ⟨?_, ?_, ?_⟩ <;> decide

/-- Claim C2, counterexample: over the single-location rows
`[(loc A, v 10), (loc A, v null)]` the Average aggregation returns `5`
(the null is coerced to `0` by JavaScript `+` and counted in the
denominator), not the `10` the claim's excluded-null rule predicts. -/
theorem c2_average_null_counterexample :
    choroplethUpdate "Average" "loc"
        [{ displayName := "loc", isLocation := true, isLatitude := false,
           isLongitude := false, numeric := false },
         { displayName := "v", isLocation := false, isLatitude := false,
           isLongitude := false, numeric := true }]
        [[("loc", .vstr "A"), ("v", .vnum 10)], [("loc", .vstr "A"), ("v", .vnull)]]
      = [[("loc", .vstr "A"), ("v", .vnum 5)]] ∧
    JSVal.vnum 5 ≠ JSVal.vnum 10 := by
  refine ⟨?_, ?_⟩ <;> decide

/-- Claim C4, counterexample: when `0` is observed, the falsy running-min
guard `!min` treats the current minimum `0` as unset, so over records with
values `0` then `5` the returned min is `4` (after the degenerate decrement
of the wrongly computed `min = max = 5`), not the smallest observed value
`0`. -/
theorem c4_getLimits_zero_counterexample :
    getLimits [[("v", .vnum 0)], [("v", .vnum 5)]] "v"
      = { min := .vnum 4, max := .vnum 5, values := [.vnum 0, .vnum 5] } ∧
    JSVal.vnum 4 ≠ JSVal.vnum 0 := by
  refine ⟨?_, ?_⟩ <;> decide

/-- Claim C5, counterexample: over the all-equal observed values `[0]` the
degenerate decrement is skipped (the guard `min && ...` is falsy at `0`), so
`getLimits` returns `min = max = 0` and the interpolation divisor
`max - min` is zero. -/
theorem c5_degenerate_zero_counterexample :
    getLimits [[("v", .vnum 0)]] "v"
      = { min := .vnum 0, max := .vnum 0, values := [.vnum 0] } ∧
    jsLt (JSVal.vnum 0) (JSVal.vnum 0) = false ∧
    jsSub (JSVal.vnum 0) (JSVal.vnum 0) = .vnum 0 := by
  refine ⟨?_, ?_, ?_⟩ <;> decide

/-- Claim C6, counterexample: with a diverging gradient configuration whose
`midValue` is `10`, the single-value domain `[5]` produces two color stops
(the mid clamp is appended to both halves and survives in the upper half),
not exactly one. -/
theorem c6_single_value_midvalue_counterexample :
    (generateColorStops .Equidistant
        { isCluster := false, diverging := true, minValue := none, midValue := some 10,
          maxValue := none, minColor := "mincol", midColor := "midcol", maxColor := "maxcol" }
        true [5] (fun _ => "palette")).length = 2 ∧
    (2 : ℕ) ≠ 1 := by
  refine ⟨?_, ?_⟩ <;> decide

/-- Claim C8, counterexample: a one-row-per-location dataset containing a
null numeric value is not a fixed point of the Average aggregation — the
null becomes `0` (the sum `0 + null` is `0`, divided by the group size
`1`). -/
theorem c8_average_null_not_fixed_point :
    choroplethUpdate "Average" "loc"
        [{ displayName := "loc", isLocation := true, isLatitude := false,
           isLongitude := false, numeric := false },
         { displayName := "v", isLocation := false, isLatitude := false,
           isLongitude := false, numeric := true }]
        [[("loc", .vstr "A"), ("v", .vnull)]]
      = [[("loc", .vstr "A"), ("v", .vnum 0)]] ∧
    [[("loc", JSVal.vstr "A"), ("v", JSVal.vnum 0)]] ≠
      [[("loc", JSVal.vstr "A"), ("v", JSVal.vnull)]] := by
  refine ⟨?_, ?_⟩ <;> decide

/-- Claim C10, counterexample: two rows with the same (truthy) location key
and truthy colors are both dropped — the duplicate guard discards the whole
result — although the claim says every row with truthy location and color is
emitted in input order. -/
theorem c10_duplicate_drops_all_rows :
    preprocessData "loc" (some "c") "" (fun v => v)
        [[("loc", .vstr "A"), ("c", .vnum 1)], [("loc", .vstr "A"), ("c", .vnum 2)]]
      = [] ∧
    ([] : List PreStop) ≠
      [{ location := .vstr "A", color := .vnum 1, size := .vnull },
       { location := .vstr "A", color := .vnum 2, size := .vnull }] := by
  refine ⟨?_, ?_⟩ <;> decide

/-! ## Helper lemmas for the amended claims -/

theorem jsAdd_vnum (a b : ℚ) : jsAdd (.vnum a) (.vnum b) = .vnum (a + b) := by
  simp [jsAdd, jsToNumber, qAdd_eq]

theorem foldl_jsAdd_vnum (qs : List ℚ) :
    ∀ a : ℚ, (qs.map JSVal.vnum).foldl jsAdd (.vnum a) = .vnum (a + qs.sum) := by
  induction qs with
  | nil => intro a; simp
  | cons q qs ih =>
    intro a
    simp only [List.map_cons, List.foldl_cons, jsAdd_vnum, ih (a + q), List.sum_cons]
    ring_nf

/-- Claim C2 (amended): the code's Average is the JavaScript sum of all
grouped entries (nulls coerced to 0) divided by the total group size
including nulls — which agrees with the claim exactly when every grouped
entry is a non-null number: then the per-group Average is the sum of the
numeric values divided by their count, and the claim's example rows
aggregate to regions A→15 and B→5. -/
theorem c2_average_amended :
    (∀ qs : List ℚ, qs ≠ [] →
      aggregateValues "Average" (qs.map JSVal.vnum) = .vnum (qs.sum / (qs.length : ℚ))) ∧
    choroplethUpdate "Average" "loc"
        [{ displayName := "loc", isLocation := true, isLatitude := false,
           isLongitude := false, numeric := false },
         { displayName := "v", isLocation := false, isLatitude := false,
           isLongitude := false, numeric := true }]
        [[("loc", .vstr "A"), ("v", .vnum 10)],
         [("loc", .vstr "A"), ("v", .vnum 20)],
         [("loc", .vstr "B"), ("v", .vnum 5)]]
      = [[("loc", .vstr "A"), ("v", .vnum 15)],
         [("loc", .vstr "B"), ("v", .vnum 5)]] := by
  constructor
  · intro qs hqs
    have hlen : (qs.map JSVal.vnum).length ≠ 0 := by
      simpa using fun h => hqs (List.length_eq_zero.mp h)
    have hlenq : ((qs.length : ℚ)) ≠ 0 := by
      exact_mod_cast fun h => hqs (List.length_eq_zero.mp (by exact_mod_cast h))
    simp only [aggregateValues, if_neg (by decide : ¬ ("Average" = "Count")),
      if_neg (by decide : ¬ ("Average" = "Sum")), if_pos rfl, if_pos hlen]
    rw [show ((qs.map JSVal.vnum).foldl jsAdd (.vnum 0)) = .vnum qs.sum by
      simpa using foldl_jsAdd_vnum qs 0]
    simp only [jsDiv, jsToNumber, List.length_map]
    rw [if_neg hlenq, qDiv_eq]
    simp
  · decide

/-- Witness for C2 at the concrete group `[10, 20]`. -/
theorem c2_average_amended_witness :
    aggregateValues "Average" ([(10:ℚ), 20].map JSVal.vnum)
      = .vnum (([(10:ℚ), 20].sum) / (([(10:ℚ), 20].length : ℚ))) :=
  c2_average_amended.1 [10, 20] (by decide)

/-- Claim C6 (amended): for a single-value domain `[v]`,
`generateColorStops` emits exactly one stop at that value — palette-colored
on the categorical path, and colored with the scale's first color on the
gradient path — provided the gradient settings are non-diverging (or cluster
settings), or diverging with no min/mid/max clamp; a diverging configuration
with a clamp or midValue set emits extra stops at those clamp values (see
the counterexample). -/
theorem c6_single_value_amended (method : ClassificationMethod)
    (settings : GradientSettings) (v : ℚ) (palette : String → String)
    (hs : settings.isCluster = true ∨ settings.diverging = false ∨
      (settings.minValue = none ∧ settings.midValue = none ∧ settings.maxValue = none)) :
    generateColorStops method settings false [v] palette
      = [{ colorStop := .vstr (jsToString (.vnum v)),
           color := palette (jsToString (.vnum v)) }] ∧
    generateColorStops method settings true [v] palette
      = [{ colorStop := .vnum v, color := settings.minColor }] := by
  constructor
  · simp [generateColorStops]
  · by_cases hnd : settings.isCluster = true ∨ ¬ settings.diverging = true
    · rcases hnd with h | h
      · simp [generateColorStops, mapValuesToColorStops, h, List.headD]
      · have hd : settings.diverging = false := by
          revert h; cases settings.diverging <;> simp
        simp [generateColorStops, mapValuesToColorStops, hd, List.headD]
    · rcases hs with h | h | h
      · exact absurd (Or.inl h) hnd
      · exact absurd (Or.inr (by simp [h])) hnd
      · obtain ⟨hmin, hmid, hmax⟩ := h
        simp [generateColorStops, mapValuesToColorStops, hnd, hmin, hmid, hmax,
          filterValues, List.headD]

/-- Witness for C6 at a concrete non-diverging gradient configuration and
the single-value domain `[7]`. -/
theorem c6_single_value_amended_witness :
    generateColorStops ClassificationMethod.Equidistant
        { isCluster := false, diverging := false, minValue := none, midValue := none,
          maxValue := none, minColor := "mincol", midColor := "midcol", maxColor := "maxcol" }
        true [7] (fun _ => "palette")
      = [{ colorStop := .vnum 7, color := "mincol" }] :=
  (c6_single_value_amended ClassificationMethod.Equidistant
    { isCluster := false, diverging := false, minValue := none, midValue := none,
      maxValue := none, minColor := "mincol", midColor := "midcol", maxColor := "maxcol" }
    7 (fun _ => "palette") (Or.inr (Or.inl rfl))).2

/-! ### Helper lemmas for the aggregation fixed point (C8) -/

theorem insertionKeysAux_of_nodup :
    ∀ (l seen : List String), l.Nodup → (∀ k ∈ l, k ∉ seen) →
      insertionKeysAux seen l = l := by
  intro l
  induction l with
  | nil => intro seen _ _; rfl
  | cons k ks ih =>
    intro seen hnd hdisj
    have hk : k ∉ seen := hdisj k (List.mem_cons_self _ _)
    rw [insertionKeysAux, if_neg hk]
    congr 1
    refine ih (k :: seen) (List.nodup_cons.mp hnd).2 ?_
    intro x hx
    simp only [List.mem_cons, not_or]
    exact ⟨fun h => (List.nodup_cons.mp hnd).1 (h ▸ hx), hdisj x (List.mem_cons_of_mem _ hx)⟩

theorem filterMap_arrayIndex_nil : ∀ l : List String,
    (∀ k ∈ l, arrayIndexKey k = none) →
    l.filterMap (fun k => (arrayIndexKey k).map (fun n => (n, k))) = [] := by
  intro l
  induction l with
  | nil => intro _; rfl
  | cons k ks ih =>
    intro h
    have hk : (arrayIndexKey k).map (fun n => (n, k)) = none := by
      rw [h k (List.mem_cons_self _ _)]
      rfl
    simp only [List.filterMap_cons, hk]
    exact ih (fun x hx => h x (List.mem_cons_of_mem _ hx))

theorem filter_arrayIndex_self : ∀ l : List String,
    (∀ k ∈ l, arrayIndexKey k = none) →
    l.filter (fun k => arrayIndexKey k = none) = l := by
  intro l
  induction l with
  | nil => intro _; rfl
  | cons k ks ih =>
    intro h
    rw [List.filter_cons, if_pos (by simp [h k (List.mem_cons_self _ _)])]
    rw [ih (fun x hx => h x (List.mem_cons_of_mem _ hx))]

theorem objectKeys_of_nodup_nonindex (l : List String) (hnd : l.Nodup)
    (hni : ∀ k ∈ l, arrayIndexKey k = none) : objectKeys l = l := by
  have hdist : insertionKeysAux [] l = l :=
    insertionKeysAux_of_nodup l [] hnd (by simp)
  simp only [objectKeys, hdist]
  rw [filterMap_arrayIndex_nil l hni, filter_arrayIndex_self l hni]
  rfl

theorem filter_eq_singleton_of_nodup_map {α β : Type} [DecidableEq β] (f : α → β) :
    ∀ (l : List α) (r : α), (l.map f).Nodup → r ∈ l →
      l.filter (fun x => f x = f r) = [r] := by
  intro l
  induction l with
  | nil => intro r _ hr; exact absurd hr (List.not_mem_nil r)
  | cons a t ih =>
    intro r hnd hr
    rw [List.map_cons] at hnd
    have hnd' := List.nodup_cons.mp hnd
    rcases List.mem_cons.mp hr with h | h
    · subst h
      rw [List.filter_cons, if_pos (by simp)]
      have : t.filter (fun x => f x = f r) = [] := by
        refine List.filter_eq_nil_iff.mpr ?_
        intro x hx
        simp only [decide_eq_true_eq]
        intro hfx
        exact hnd'.1 (hfx ▸ List.mem_map_of_mem f hx)
      rw [this]
    · have hne : ¬ (f a = f r) := by
        intro hfa
        exact hnd'.1 (hfa ▸ List.mem_map_of_mem f h)
      rw [List.filter_cons, if_neg (by simpa using hne)]
      exact ih r hnd'.2 h

theorem aggregateValues_min_singleton (v : JSVal) :
    aggregateValues "Minimum" [v] = v := by
  simp [aggregateValues, jsTruthy]

theorem aggregateValues_max_singleton (v : JSVal) :
    aggregateValues "Maximum" [v] = v := by
  simp [aggregateValues, jsTruthy]

theorem aggregateValues_avg_singleton (q : ℚ) :
    aggregateValues "Average" [.vnum q] = .vnum q := by
  simp only [aggregateValues, if_neg (by decide : ¬ ("Average" = "Count")),
    if_neg (by decide : ¬ ("Average" = "Sum")), if_pos rfl]
  rw [if_pos (by decide), show ([JSVal.vnum q].foldl jsAdd (.vnum 0)) = .vnum q by
    simpa using jsAdd_vnum 0 q]
  simp [jsDiv, jsToNumber, qDiv_eq]

/-- Claim C8 (amended): the aggregation is a fixed point on datasets whose
stringified location keys are pairwise distinct and not integer-like
(JavaScript enumerates integer-like object keys first in ascending numeric
order, which would reorder the records), for Minimum and Maximum always,
and for Average provided every aggregated (numeric, non-location) column
value is a non-null number — a null averages to `0`, not to itself (see the
counterexample).  The output is the input rows projected onto the declared
columns, in input order. -/
theorem c8_single_row_fixed_point (agg locCol : String) (columns : List Column)
    (rows : List Row)
    (hnodup : (rows.map (locKey locCol)).Nodup)
    (hidx : ∀ r ∈ rows, arrayIndexKey (locKey locCol r) = none)
    (hagg : agg = "Minimum" ∨ agg = "Maximum" ∨
      (agg = "Average" ∧ ∀ r ∈ rows, ∀ col ∈ columns,
        (col.isLocation = false ∧ col.isLatitude = false ∧ col.isLongitude = false ∧
          col.numeric = true) → ∃ q : ℚ, rowGet r col.displayName = .vnum q)) :
    choroplethUpdate agg locCol columns rows =
      rows.map (fun r => columns.map (fun col => (col.displayName, rowGet r col.displayName))) := by
  have hni : ∀ k ∈ rows.map (locKey locCol), arrayIndexKey k = none := by
    intro k hk
    obtain ⟨r, hr, rfl⟩ := List.mem_map.mp hk
    exact hidx r hr
  rw [choroplethUpdate, objectKeys_of_nodup_nonindex _ hnodup hni, List.map_map]
  refine List.map_congr_left ?_
  intro r hr
  simp only [Function.comp]
  refine List.map_congr_left ?_
  intro col hcol
  have hgroup : groupValues rows locCol col.displayName (locKey locCol r)
      = [rowGet r col.displayName] := by
    rw [groupValues, filter_eq_singleton_of_nodup_map (locKey locCol) rows r hnodup hr]
    rfl
  rw [hgroup]
  by_cases hexempt : col.isLocation ∨ col.isLatitude ∨ col.isLongitude ∨ ¬ col.numeric
  · rw [aggregateColumn, if_pos hexempt]
  · rw [aggregateColumn, if_neg hexempt]
    rcases hagg with h | h | ⟨h, hvals⟩
    · rw [h, aggregateValues_min_singleton]
    · rw [h, aggregateValues_max_singleton]
    · push_neg at hexempt
      obtain ⟨q, hq⟩ := hvals r hr col hcol
        ⟨by simpa using hexempt.1, by simpa using hexempt.2.1,
         by simpa using hexempt.2.2.1, by simpa using hexempt.2.2.2⟩
      rw [h, hq, aggregateValues_avg_singleton]

/-- Witness for C8: a two-location, one-row-per-location dataset is a fixed
point of the Minimum aggregation. -/
theorem c8_single_row_fixed_point_witness :
    choroplethUpdate "Minimum" "loc"
        [{ displayName := "loc", isLocation := true, isLatitude := false,
           isLongitude := false, numeric := false },
         { displayName := "v", isLocation := false, isLatitude := false,
           isLongitude := false, numeric := true }]
        [[("loc", .vstr "A"), ("v", .vnum 3)], [("loc", .vstr "B"), ("v", .vnum 9)]]
      = [[("loc", .vstr "A"), ("v", .vnum 3)], [("loc", .vstr "B"), ("v", .vnum 9)]] := by
  have h := c8_single_row_fixed_point "Minimum" "loc"
    [{ displayName := "loc", isLocation := true, isLatitude := false,
       isLongitude := false, numeric := false },
     { displayName := "v", isLocation := false, isLatitude := false,
       isLongitude := false, numeric := true }]
    [[("loc", .vstr "A"), ("v", .vnum 3)], [("loc", .vstr "B"), ("v", .vnum 9)]]
    (by decide) (by decide) (Or.inl rfl)
  rw [h]
  decide

/-! ### Helper lemmas for preprocessData (C10) -/

/-- Whether `preprocessData` keeps a row: both its location and its computed
color must be truthy. -/
def keepRow (locCol : String) (colorCol : Option String)
    (getColorOfLocation : JSVal → JSVal) (row : Row) : Bool :=
  jsTruthy (rowGet row locCol) && jsTruthy (rowColor colorCol getColorOfLocation row)

/-- The stop entry `preprocessData` builds for a kept row. -/
def mkPreStop (locCol : String) (colorCol : Option String) (sizeCol : String)
    (getColorOfLocation : JSVal → JSVal) (row : Row) : PreStop :=
  { location := rowGet row locCol,
    color := rowColor colorCol getColorOfLocation row,
    size := if sizeCol ≠ "" then rowGet row sizeCol else .vnull }

theorem preprocessGo_spec (locCol : String) (colorCol : Option String) (sizeCol : String)
    (getColorOfLocation : JSVal → JSVal) :
    ∀ (data : List Row) (seen : List String),
      ((data.filter (keepRow locCol colorCol getColorOfLocation)).map
        (fun r => jsToString (rowGet r locCol))).Nodup →
      (∀ r ∈ data.filter (keepRow locCol colorCol getColorOfLocation),
        jsToString (rowGet r locCol) ∉ seen) →
      preprocessGo locCol colorCol sizeCol getColorOfLocation seen data =
        some ((data.filter (keepRow locCol colorCol getColorOfLocation)).map
          (mkPreStop locCol colorCol sizeCol getColorOfLocation)) := by
  intro data
  induction data with
  | nil => intro seen _ _; rfl
  | cons row rest ih =>
    intro seen hnodup hdisj
    by_cases hk : keepRow locCol colorCol getColorOfLocation row = true
    · have hloc : jsTruthy (rowGet row locCol) = true := (Bool.and_eq_true _ _ |>.mp hk).1
      have hcol : jsTruthy (rowColor colorCol getColorOfLocation row) = true :=
        (Bool.and_eq_true _ _ |>.mp hk).2
      have hfilter : (row :: rest).filter (keepRow locCol colorCol getColorOfLocation)
          = row :: rest.filter (keepRow locCol colorCol getColorOfLocation) := by
        rw [List.filter_cons, if_pos hk]
      rw [hfilter] at hnodup hdisj ⊢
      rw [List.map_cons] at hnodup
      have hnd' := List.nodup_cons.mp hnodup
      have hrow_seen : jsToString (rowGet row locCol) ∉ seen :=
        hdisj row (List.mem_cons_self _ _)
      simp only [preprocessGo]
      rw [if_neg (by simp [hloc, hcol])]
      rw [if_neg hrow_seen]
      rw [ih (jsToString (rowGet row locCol) :: seen) hnd'.2 ?_]
      · rfl
      · intro r hr
        simp only [List.mem_cons, not_or]
        refine ⟨?_, hdisj r (List.mem_cons_of_mem _ hr)⟩
        intro heq
        exact hnd'.1 (heq ▸ List.mem_map_of_mem _ hr)
    · have hcond : (¬ jsTruthy (rowGet row locCol) = true) ∨
          (¬ jsTruthy (rowColor colorCol getColorOfLocation row) = true) := by
        by_contra hc
        push_neg at hc
        exact hk (Bool.and_eq_true _ _ |>.mpr ⟨hc.1, hc.2⟩)
      have hfilter : (row :: rest).filter (keepRow locCol colorCol getColorOfLocation)
          = rest.filter (keepRow locCol colorCol getColorOfLocation) := by
        rw [List.filter_cons, if_neg hk]
      rw [hfilter] at hnodup hdisj ⊢
      simp only [preprocessGo]
      rw [if_pos hcond]
      exact ih seen hnodup hdisj

/-- Claim C10 (amended): `preprocessData` silently drops every aggregated
row whose location value or computed color is falsy — such a row contributes
no color stop, no size stop and no filter entry — and emits all remaining
rows in input order, provided the kept rows' stringified location keys are
pairwise distinct; when two kept rows share a key the duplicate guard
discards the entire result instead (see the counterexample). -/
theorem c10_falsy_rows_dropped (property locCol : String) (colorCol : Option String)
    (sizeCol : String) (getColorOfLocation : JSVal → JSVal) (sizeLimits : Limits)
    (baseHeight height : ℚ) (data : List Row)
    (hnodup : ((data.filter (keepRow locCol colorCol getColorOfLocation)).map
      (fun r => jsToString (rowGet r locCol))).Nodup) :
    preprocessData locCol colorCol sizeCol getColorOfLocation data
      = (data.filter (keepRow locCol colorCol getColorOfLocation)).map
          (mkPreStop locCol colorCol sizeCol getColorOfLocation) ∧
    (applySettingsBind property locCol colorCol sizeCol getColorOfLocation sizeLimits
        baseHeight height data).fillColor
      = .categorical property "rgba(0,0,0,0)"
          ((data.filter (keepRow locCol colorCol getColorOfLocation)).map (fun r =>
            (rowGet r locCol, jsToString (rowColor colorCol getColorOfLocation r)))) ∧
    (applySettingsBind property locCol colorCol sizeCol getColorOfLocation sizeLimits
        baseHeight height data).filterExpr
      = some (.vstr "in" :: .vstr property ::
          (data.filter (keepRow locCol colorCol getColorOfLocation)).map (fun r =>
            rowGet r locCol)) := by
  have h1 : preprocessData locCol colorCol sizeCol getColorOfLocation data
      = (data.filter (keepRow locCol colorCol getColorOfLocation)).map
          (mkPreStop locCol colorCol sizeCol getColorOfLocation) := by
    rw [preprocessData,
      preprocessGo_spec locCol colorCol sizeCol getColorOfLocation data [] hnodup (by simp)]
    rfl
  refine ⟨h1, ?_, ?_⟩
  · rw [applySettingsBind]
    simp only [jsArrayTruthy, if_pos rfl, h1, List.map_map]
    rfl
  · rw [applySettingsBind]
    simp only [jsArrayTruthy, if_pos rfl, h1, List.map_map]
    rfl

/-- Witness for C10: a dataset with one falsy-location row and one
falsy-color row between two kept rows. -/
theorem c10_falsy_rows_dropped_witness :
    preprocessData "loc" (some "c") "sz" (fun v => v)
        [[("loc", .vstr "A"), ("c", .vnum 1), ("sz", .vnum 4)],
         [("loc", .vnull), ("c", .vnum 3)],
         [("loc", .vstr "X"), ("c", .vnum 0)],
         [("loc", .vstr "B"), ("c", .vnum 2), ("sz", .vnum 6)]]
      = ([[("loc", .vstr "A"), ("c", .vnum 1), ("sz", .vnum 4)],
          [("loc", .vnull), ("c", .vnum 3)],
          [("loc", .vstr "X"), ("c", .vnum 0)],
          [("loc", .vstr "B"), ("c", .vnum 2), ("sz", .vnum 6)]].filter
            (keepRow "loc" (some "c") (fun v => v))).map
          (mkPreStop "loc" (some "c") "sz" (fun v => v)) :=
  (c10_falsy_rows_dropped "p" "loc" (some "c") "sz" (fun v => v)
    { min := .vnull, max := .vnull, values := [] } 0 0
    [[("loc", .vstr "A"), ("c", .vnum 1), ("sz", .vnum 4)],
     [("loc", .vnull), ("c", .vnum 3)],
     [("loc", .vstr "X"), ("c", .vnum 0)],
     [("loc", .vstr "B"), ("c", .vnum 2), ("sz", .vnum 6)]] (by decide)).1

/-! ### Helper lemmas for the bbox protocol (C3) -/

theorem runBBoxProtocol_cons (sourceBounds : Option BBox) (s : BBoxProtoState)
    (ev : BBoxEvent × ℕ × Option BBox) (evs : List (BBoxEvent × ℕ × Option BBox)) :
    runBBoxProtocol sourceBounds s (ev :: evs) =
      runBBoxProtocol sourceBounds
        (if bboxDelivered s ev.1 then bboxStep sourceBounds s ev.2.1 ev.2.2 else s) evs := rfl

theorem runBBoxProtocol_append (sourceBounds : Option BBox) (s : BBoxProtoState)
    (l1 l2 : List (BBoxEvent × ℕ × Option BBox)) :
    runBBoxProtocol sourceBounds s (l1 ++ l2) =
      runBBoxProtocol sourceBounds (runBBoxProtocol sourceBounds s l1) l2 :=
  List.foldl_append _ _ _ _

theorem bbox_pre_stationary (sourceBounds : Option BBox) :
    ∀ pre : List (BBoxEvent × ℕ × Option BBox),
      (∀ ev ∈ pre, ev.2.2 = none ∧ ev.2.1 ≤ bboxTimeout) →
      runBBoxProtocol sourceBounds initialBBoxState pre = initialBBoxState := by
  intro pre
  induction pre with
  | nil => intro _; rfl
  | cons ev evs ih =>
    intro h
    obtain ⟨k, t, q⟩ := ev
    obtain ⟨hq, hle⟩ := h (k, t, q) (List.mem_cons_self _ _)
    subst hq
    rw [runBBoxProtocol_cons]
    have hstep : (if bboxDelivered initialBBoxState k then
        bboxStep sourceBounds initialBBoxState t none else initialBBoxState)
        = initialBBoxState := by
      have hnt : ¬ t > bboxTimeout := not_lt.mpr hle
      cases k with
      | sourcedata =>
        rw [if_pos (show bboxDelivered initialBBoxState BBoxEvent.sourcedata = true from rfl)]
        simp [bboxStep, initialBBoxState, jsBoundsEq, hnt]
      | timerTick =>
        rw [if_pos (show bboxDelivered initialBBoxState BBoxEvent.timerTick = true from rfl)]
        simp [bboxStep, initialBBoxState, jsBoundsEq, hnt]
      | zoomend => rw [if_neg (by simp [bboxDelivered, initialBBoxState])]
    rw [hstep]
    exact ih (fun e he => h e (List.mem_cons_of_mem _ he))

theorem bbox_dead_stationary (sourceBounds : Option BBox) (s : BBoxProtoState)
    (h1 : s.sourcedataOn = false) (h2 : s.intervalOn = false) :
    ∀ post : List (BBoxEvent × ℕ × Option BBox),
      (∀ ev ∈ post, ev.1 ≠ BBoxEvent.zoomend) →
      runBBoxProtocol sourceBounds s post = s := by
  intro post
  induction post with
  | nil => intro _; rfl
  | cons ev evs ih =>
    intro h
    obtain ⟨k, t, q⟩ := ev
    have hk := h (k, t, q) (List.mem_cons_self _ _)
    rw [runBBoxProtocol_cons]
    have hstep : (if bboxDelivered s k then bboxStep sourceBounds s t q else s) = s := by
      cases k with
      | sourcedata => rw [if_neg (by simp [bboxDelivered, h1])]
      | timerTick => rw [if_neg (by simp [bboxDelivered, h2])]
      | zoomend => exact absurd rfl hk
    rw [hstep]
    exact ih (fun e he => h e (List.mem_cons_of_mem _ he))

/-- Claim C3: while the geometry query keeps returning an unchanged (null)
box, every handler invocation at or before the 1500ms timeout leaves the
protocol in its initial first-round state; the first invocation past the
timeout ends the first round — the `sourcedata` listener and the 500ms
interval are deregistered (so later `sourcedata` or timer events are not
delivered and no further timer-driven queries occur), the bounds are
replaced by the source's declared bounds, zoom-to-bounds is invoked exactly
once with those fallback bounds, and a `zoomend` listener is registered for
the single second-round retry. -/
theorem c3_first_round_timeout_fallback (sourceBox : BBox)
    (pre : List (BBoxEvent × ℕ × Option BBox)) (t : ℕ)
    (post : List (BBoxEvent × ℕ × Option BBox))
    (hpre : ∀ ev ∈ pre, ev.2.2 = none ∧ ev.2.1 ≤ bboxTimeout)
    (ht : t > bboxTimeout)
    (hpost : ∀ ev ∈ post, ev.1 ≠ BBoxEvent.zoomend) :
    runBBoxProtocol (some sourceBox) initialBBoxState
        (pre ++ (BBoxEvent.timerTick, t, none) :: post)
      = { bounds := some sourceBox, in1stRound := false, sourcedataOn := false,
          intervalOn := false, zoomendOn := true, zoomCalls := [some sourceBox] } := by
  rw [show pre ++ (BBoxEvent.timerTick, t, none) :: post
      = pre ++ ((BBoxEvent.timerTick, t, none) :: post) from rfl,
    runBBoxProtocol_append, bbox_pre_stationary (some sourceBox) pre hpre,
    runBBoxProtocol_cons]
  have hstep : (if bboxDelivered initialBBoxState BBoxEvent.timerTick then
      bboxStep (some sourceBox) initialBBoxState t none else initialBBoxState)
      = { bounds := some sourceBox, in1stRound := false, sourcedataOn := false,
          intervalOn := false, zoomendOn := true, zoomCalls := [some sourceBox] } := by
    rw [if_pos (show bboxDelivered initialBBoxState BBoxEvent.timerTick = true from rfl)]
    simp [bboxStep, initialBBoxState, jsBoundsEq, ht]
  rw [hstep]
  exact bbox_dead_stationary (some sourceBox) _ rfl rfl post hpost

/-- Witness for C3: the concrete 2000ms null-query scenario of the spec —
500ms ticks up to 1500ms leave the state unchanged, the 2000ms tick falls
back to the source bounds, and a later tick is not delivered. -/
theorem c3_first_round_timeout_fallback_witness :
    runBBoxProtocol (some ((0:ℚ), (0:ℚ), (10:ℚ), (10:ℚ))) initialBBoxState
        [(BBoxEvent.timerTick, 500, none), (BBoxEvent.timerTick, 1000, none),
         (BBoxEvent.timerTick, 1500, none), (BBoxEvent.timerTick, 2000, none),
         (BBoxEvent.timerTick, 2500, none)]
      = { bounds := some ((0:ℚ), (0:ℚ), (10:ℚ), (10:ℚ)), in1stRound := false,
          sourcedataOn := false, intervalOn := false, zoomendOn := true,
          zoomCalls := [some ((0:ℚ), (0:ℚ), (10:ℚ), (10:ℚ))] } :=
  c3_first_round_timeout_fallback ((0:ℚ), (0:ℚ), (10:ℚ), (10:ℚ))
    [(BBoxEvent.timerTick, 500, none), (BBoxEvent.timerTick, 1000, none),
     (BBoxEvent.timerTick, 1500, none)] 2000
    [(BBoxEvent.timerTick, 2500, none)]
    (by decide) (by decide) (by decide)

/-! ### Helper lemmas for getLimits (C4, C5) -/

/-- The numeric values observed at a field: the values of the rows where the
field is present as a number. -/
def observedValues (data : List Row) (prop : String) : List ℚ :=
  data.filterMap (fun r =>
    match rowGet r prop with
    | .vnum q => some q
    | _ => none)

theorem obsExtract_eq_some (w : JSVal) (x : ℚ) :
    (match w with | .vnum q => some q | _ => (none : Option ℚ)) = some x ↔ w = .vnum x := by
  cases w <;> simp

theorem observedValues_mem (data : List Row) (prop : String) (x : ℚ) :
    x ∈ observedValues data prop ↔ ∃ r ∈ data, rowGet r prop = .vnum x := by
  rw [observedValues, List.mem_filterMap]
  constructor
  · rintro ⟨r, hr, hmatch⟩
    exact ⟨r, hr, (obsExtract_eq_some _ _).mp hmatch⟩
  · rintro ⟨r, hr, hmatch⟩
    exact ⟨r, hr, (obsExtract_eq_some _ _).mpr hmatch⟩

theorem keptValues_eq_map (data : List Row) (prop : String)
    (hnum : ∀ r ∈ data, rowGet r prop = .vundef ∨ rowGet r prop = .vnull ∨
      ∃ q : ℚ, rowGet r prop = .vnum q) :
    keptValues data prop = (observedValues data prop).map JSVal.vnum := by
  induction data with
  | nil => rfl
  | cons r rest ih =>
    have hrest := fun x hx => hnum x (List.mem_cons_of_mem _ hx)
    rcases hnum r (List.mem_cons_self _ _) with h | h | ⟨q, h⟩ <;>
      simp only [keptValues, observedValues, List.filterMap_cons, h] <;>
      simp only [keptValues, observedValues] at ih <;>
      simp [ih hrest]

theorem positionFound_map_vnum : ∀ (acc : List ℚ) (q : ℚ),
    positionFound (acc.map JSVal.vnum) (.vnum q) = decide (q ∈ acc) := by
  intro acc
  induction acc with
  | nil => intro q; rfl
  | cons a acc ih =>
    intro q
    have ha : ((acc.map JSVal.vnum).any fun x => jsLooseEq x (.vnum q)) = decide (q ∈ acc) := by
      have h := ih q
      rwa [positionFound, show jsLooseEq .vundef (.vnum q) = false from rfl,
        Bool.or_false] at h
    rw [positionFound, List.map_cons, List.any_cons, ha,
      show jsLooseEq .vundef (.vnum q) = false from rfl, Bool.or_false,
      show jsLooseEq (.vnum a) (.vnum q) = decide (a = q) from rfl]
    by_cases h1 : a = q
    · simp [h1]
    · by_cases h2 : q ∈ acc
      · simp [h1, h2]
      · simp [h1, h2, List.mem_cons, eq_comm]

/-- First-seen deduplication of `qs` appended onto the already-collected
`acc`, mirroring the repeated `pushIfNotExist` calls on numeric values. -/
def dedupFirst (acc : List ℚ) (qs : List ℚ) : List ℚ :=
  qs.foldl (fun a q => if q ∈ a then a else a ++ [q]) acc

theorem dedupFirst_cons (acc : List ℚ) (q : ℚ) (qs : List ℚ) :
    dedupFirst acc (q :: qs) = dedupFirst (if q ∈ acc then acc else acc ++ [q]) qs := rfl

theorem dedupFirst_nodup : ∀ (qs acc : List ℚ), acc.Nodup → (dedupFirst acc qs).Nodup := by
  intro qs
  induction qs with
  | nil => intro acc h; exact h
  | cons q qs ih =>
    intro acc h
    rw [dedupFirst_cons]
    by_cases hq : q ∈ acc
    · rw [if_pos hq]; exact ih acc h
    · rw [if_neg hq]
      refine ih _ (List.nodup_append.mpr ⟨h, List.nodup_singleton q, ?_⟩)
      intro x hx hx'
      rw [List.mem_singleton] at hx'
      exact hq (hx' ▸ hx)

theorem dedupFirst_mem : ∀ (qs acc : List ℚ) (x : ℚ),
    x ∈ dedupFirst acc qs ↔ x ∈ acc ∨ x ∈ qs := by
  intro qs
  induction qs with
  | nil => intro acc x; simp [dedupFirst]
  | cons q qs ih =>
    intro acc x
    rw [dedupFirst_cons]
    by_cases hq : q ∈ acc
    · rw [if_pos hq, ih]
      constructor
      · rintro (h | h)
        · exact Or.inl h
        · exact Or.inr (List.mem_cons_of_mem _ h)
      · rintro (h | h)
        · exact Or.inl h
        · rcases List.mem_cons.mp h with h | h
          · exact Or.inl (h ▸ hq)
          · exact Or.inr h
    · rw [if_neg hq, ih]
      simp only [List.mem_append, List.mem_singleton, List.mem_cons]
      tauto

theorem dedupFirst_split : ∀ (qs acc : List ℚ),
    ∃ t, dedupFirst acc qs = acc ++ t ∧ t.Sublist qs := by
  intro qs
  induction qs with
  | nil => intro acc; exact ⟨[], by simp [dedupFirst], List.nil_sublist _⟩
  | cons q qs ih =>
    intro acc
    by_cases hq : q ∈ acc
    · obtain ⟨t, ht, hs⟩ := ih acc
      exact ⟨t, by rw [dedupFirst_cons, if_pos hq]; exact ht, hs.cons q⟩
    · obtain ⟨t, ht, hs⟩ := ih (acc ++ [q])
      refine ⟨q :: t, ?_, hs.cons₂ q⟩
      rw [dedupFirst_cons, if_neg hq, ht, List.append_assoc]
      rfl

theorem foldl_min_le (qs : List ℚ) :
    ∀ m : ℚ, qs.foldl min m ≤ m ∧ ∀ x ∈ qs, qs.foldl min m ≤ x := by
  induction qs with
  | nil => intro m; exact ⟨le_refl m, by intro x hx; exact absurd hx (List.not_mem_nil x)⟩
  | cons q qs ih =>
    intro m
    rw [List.foldl_cons]
    refine ⟨(ih (min m q)).1.trans (min_le_left m q), ?_⟩
    intro x hx
    rcases List.mem_cons.mp hx with h | h
    · exact h ▸ (ih (min m q)).1.trans (min_le_right m q)
    · exact (ih (min m q)).2 x h

theorem foldl_min_mem (qs : List ℚ) :
    ∀ m : ℚ, qs.foldl min m = m ∨ qs.foldl min m ∈ qs := by
  induction qs with
  | nil => intro m; exact Or.inl rfl
  | cons q qs ih =>
    intro m
    rw [List.foldl_cons]
    rcases ih (min m q) with h | h
    · rcases min_choice m q with hm | hm
      · exact Or.inl (h.trans hm)
      · exact Or.inr (by rw [h, hm]; exact List.mem_cons_self q qs)
    · exact Or.inr (List.mem_cons_of_mem _ h)

theorem foldl_max_ge (qs : List ℚ) :
    ∀ m : ℚ, m ≤ qs.foldl max m ∧ ∀ x ∈ qs, x ≤ qs.foldl max m := by
  induction qs with
  | nil => intro m; exact ⟨le_refl m, by intro x hx; exact absurd hx (List.not_mem_nil x)⟩
  | cons q qs ih =>
    intro m
    rw [List.foldl_cons]
    refine ⟨(le_max_left m q).trans (ih (max m q)).1, ?_⟩
    intro x hx
    rcases List.mem_cons.mp hx with h | h
    · exact h ▸ (le_max_right m q).trans (ih (max m q)).1
    · exact (ih (max m q)).2 x h

theorem foldl_max_mem (qs : List ℚ) :
    ∀ m : ℚ, qs.foldl max m = m ∨ qs.foldl max m ∈ qs := by
  induction qs with
  | nil => intro m; exact Or.inl rfl
  | cons q qs ih =>
    intro m
    rw [List.foldl_cons]
    rcases ih (max m q) with h | h
    · rcases max_choice m q with hm | hm
      · exact Or.inl (h.trans hm)
      · exact Or.inr (by rw [h, hm]; exact List.mem_cons_self q qs)
    · exact Or.inr (List.mem_cons_of_mem _ h)

theorem dedupFirst_const (v : ℚ) : ∀ qs : List ℚ, (∀ x ∈ qs, x = v) →
    dedupFirst [v] qs = [v] := by
  intro qs
  induction qs with
  | nil => intro _; rfl
  | cons q qs ih =>
    intro h
    rw [dedupFirst_cons, if_pos (by
      rw [h q (List.mem_cons_self _ _)]
      exact List.mem_singleton_self v)]
    exact ih (fun x hx => h x (List.mem_cons_of_mem _ hx))

theorem limitsValStep_num (m M q : ℚ) (acc : List ℚ) (hm : m ≠ 0) (hM : M ≠ 0) :
    limitsValStep { min := .vnum m, max := .vnum M, values := acc.map JSVal.vnum } (.vnum q)
      = { min := .vnum (min m q), max := .vnum (max M q),
          values := (if q ∈ acc then acc else acc ++ [q]).map JSVal.vnum } := by
  rw [limitsValStep]
  have hjm : jsTruthy (JSVal.vnum m) = true := decide_eq_true hm
  have hjM : jsTruthy (JSVal.vnum M) = true := decide_eq_true hM
  congr 1
  · rw [hjm, show jsLt (JSVal.vnum q) (JSVal.vnum m) = decide (q < m) from rfl]
    by_cases h : q < m
    · simp [h, min_eq_right h.le]
    · simp [h, min_eq_left (not_lt.mp h)]
  · rw [hjM, show jsGt (JSVal.vnum q) (JSVal.vnum M) = decide (M < q) from rfl]
    by_cases h : M < q
    · simp [h, max_eq_right h.le]
    · simp [h, max_eq_left (not_lt.mp h)]
  · rw [pushIfNotExist, positionFound_map_vnum]
    by_cases h : q ∈ acc
    · simp [h]
    · simp [h]

theorem limitsFold_num : ∀ (qs : List ℚ) (m M : ℚ) (acc : List ℚ), m ≠ 0 → M ≠ 0 →
    (0:ℚ) ∉ qs →
    limitsFold (qs.map JSVal.vnum)
        { min := .vnum m, max := .vnum M, values := acc.map JSVal.vnum }
      = { min := .vnum (qs.foldl min m), max := .vnum (qs.foldl max M),
          values := (dedupFirst acc qs).map JSVal.vnum } := by
  intro qs
  induction qs with
  | nil => intros; rfl
  | cons q qs ih =>
    intro m M acc hm hM h0
    have hq : q ≠ 0 := fun h => h0 (h ▸ List.mem_cons_self _ _)
    have h0' : (0:ℚ) ∉ qs := fun h => h0 (List.mem_cons_of_mem _ h)
    have hm' : min m q ≠ 0 := by
      rcases min_choice m q with h | h <;> rw [h] <;> assumption
    have hM' : max M q ≠ 0 := by
      rcases max_choice M q with h | h <;> rw [h] <;> assumption
    rw [List.map_cons, limitsFold, List.foldl_cons, limitsValStep_num m M q acc hm hM,
      show List.foldl limitsValStep
          { min := .vnum (min m q), max := .vnum (max M q),
            values := (if q ∈ acc then acc else acc ++ [q]).map JSVal.vnum }
          (qs.map JSVal.vnum)
        = limitsFold (qs.map JSVal.vnum)
          { min := .vnum (min m q), max := .vnum (max M q),
            values := (if q ∈ acc then acc else acc ++ [q]).map JSVal.vnum } from rfl,
      ih (min m q) (max M q) (if q ∈ acc then acc else acc ++ [q]) hm' hM' h0',
      List.foldl_cons, List.foldl_cons, dedupFirst_cons]

theorem limitsFold_from_init (q0 : ℚ) (qtail : List ℚ) (hq0 : q0 ≠ 0)
    (h0 : (0:ℚ) ∉ qtail) :
    limitsFold ((q0 :: qtail).map JSVal.vnum)
        { min := .vnull, max := .vnull, values := [] }
      = { min := .vnum (qtail.foldl min q0), max := .vnum (qtail.foldl max q0),
          values := (dedupFirst [q0] qtail).map JSVal.vnum } := by
  rw [List.map_cons, limitsFold, List.foldl_cons]
  have hstep : limitsValStep { min := .vnull, max := .vnull, values := [] } (.vnum q0)
      = { min := .vnum q0, max := .vnum q0, values := [q0].map JSVal.vnum } := by
    rw [limitsValStep]
    simp [jsTruthy, pushIfNotExist, positionFound, jsLooseEq]
  rw [hstep]
  exact limitsFold_num qtail q0 q0 [q0] hq0 hq0 h0

theorem degenerateAdjust_of_ne (a b : ℚ) (vals : List JSVal) (hab : a ≠ b) :
    degenerateAdjust { min := .vnum a, max := .vnum b, values := vals }
      = { min := .vnum a, max := .vnum b, values := vals } := by
  rw [degenerateAdjust]
  rw [if_neg]
  simp [jsLooseEq, hab]

theorem degenerateAdjust_of_eq (v : ℚ) (hv : v ≠ 0) (vals : List JSVal) :
    degenerateAdjust { min := .vnum v, max := .vnum v, values := vals }
      = { min := .vnum (v - 1), max := .vnum v, values := vals } := by
  rw [degenerateAdjust]
  rw [if_pos (by simp [jsTruthy, jsLooseEq, hv])]
  simp [jsSub, jsToNumber, qSub_eq]

theorem getLimits_eval (d0 : Row) (rest : List Row) (prop : String)
    (hprop : prop ≠ "") (htype : jsTruthy (rowGet d0 "type") = false) :
    getLimits (d0 :: rest) prop =
      degenerateAdjust (limitsFold (keptValues (d0 :: rest) prop)
        { min := .vnull, max := .vnull, values := [] }) := by
  rw [getLimits]
  congr 1
  rw [if_neg hprop, if_neg (by simp [htype])]

/-- Claim C4 (amended): over plain records whose field values are numbers
(or absent/null), `getLimits` returns the smallest observed value as `min`,
the largest as `max`, and the distinct observed values in first-seen order
as `values` — provided `0` is not among the observed values (the falsy
running-min/max guard `!min` treats `0` as unset, see the counterexample)
and at least two distinct values are observed (otherwise the degenerate
decrement rewrites `min`, see C5). -/
theorem c4_getLimits_min_max_values (data : List Row) (prop : String)
    (hprop : prop ≠ "")
    (htype : ∀ r ∈ data, jsTruthy (rowGet r "type") = false)
    (hnum : ∀ r ∈ data, rowGet r prop = .vundef ∨ rowGet r prop = .vnull ∨
      ∃ q : ℚ, rowGet r prop = .vnum q)
    (h0 : (0:ℚ) ∉ observedValues data prop)
    (hdist : ∃ a ∈ observedValues data prop, ∃ b ∈ observedValues data prop, a ≠ b) :
    (∃ m : ℚ, (getLimits data prop).min = .vnum m ∧ m ∈ observedValues data prop ∧
      ∀ x ∈ observedValues data prop, m ≤ x) ∧
    (∃ M : ℚ, (getLimits data prop).max = .vnum M ∧ M ∈ observedValues data prop ∧
      ∀ x ∈ observedValues data prop, x ≤ M) ∧
    (getLimits data prop).values.Nodup ∧
    (∀ w, w ∈ (getLimits data prop).values ↔
      ∃ q ∈ observedValues data prop, w = JSVal.vnum q) ∧
    (getLimits data prop).values.Sublist ((observedValues data prop).map JSVal.vnum) := by
  obtain ⟨a, ha, b, hb, hab⟩ := hdist
  have hobs_ne : observedValues data prop ≠ [] := by
    intro h
    rw [h] at ha
    exact absurd ha (List.not_mem_nil a)
  obtain ⟨q0, qtail, hobs⟩ := List.exists_cons_of_ne_nil hobs_ne
  cases data with
  | nil => exact absurd hobs (by simp [observedValues])
  | cons d0 rest =>
    have hq0 : q0 ≠ 0 := by
      intro h
      exact h0 (by rw [hobs, h] at *; exact List.mem_cons_self _ _)
    have h0tail : (0:ℚ) ∉ qtail := by
      intro h
      exact h0 (by rw [hobs]; exact List.mem_cons_of_mem _ h)
    have hfold := limitsFold_from_init q0 qtail hq0 h0tail
    have hkept := keptValues_eq_map (d0 :: rest) prop hnum
    -- bounds of the fold results
    have hminle : ∀ x ∈ observedValues (d0 :: rest) prop, qtail.foldl min q0 ≤ x := by
      intro x hx
      rw [hobs] at hx
      rcases List.mem_cons.mp hx with h | h
      · exact h ▸ (foldl_min_le qtail q0).1
      · exact (foldl_min_le qtail q0).2 x h
    have hmaxge : ∀ x ∈ observedValues (d0 :: rest) prop, x ≤ qtail.foldl max q0 := by
      intro x hx
      rw [hobs] at hx
      rcases List.mem_cons.mp hx with h | h
      · exact h ▸ (foldl_max_ge qtail q0).1
      · exact (foldl_max_ge qtail q0).2 x h
    have hminmem : qtail.foldl min q0 ∈ observedValues (d0 :: rest) prop := by
      rw [hobs]
      rcases foldl_min_mem qtail q0 with h | h
      · rw [h]; exact List.mem_cons_self _ _
      · exact List.mem_cons_of_mem _ h
    have hmaxmem : qtail.foldl max q0 ∈ observedValues (d0 :: rest) prop := by
      rw [hobs]
      rcases foldl_max_mem qtail q0 with h | h
      · rw [h]; exact List.mem_cons_self _ _
      · exact List.mem_cons_of_mem _ h
    have hne : qtail.foldl min q0 ≠ qtail.foldl max q0 := by
      intro heq
      have h1 : a = qtail.foldl min q0 := by
        have hub : a ≤ qtail.foldl max q0 := hmaxge a ha
        rw [← heq] at hub
        exact le_antisymm hub (hminle a ha)
      have h2 : b = qtail.foldl min q0 := by
        have hub : b ≤ qtail.foldl max q0 := hmaxge b hb
        rw [← heq] at hub
        exact le_antisymm hub (hminle b hb)
      exact hab (h1.trans h2.symm)
    have hgl : getLimits (d0 :: rest) prop
        = { min := .vnum (qtail.foldl min q0), max := .vnum (qtail.foldl max q0),
            values := (dedupFirst [q0] qtail).map JSVal.vnum } := by
      rw [getLimits_eval d0 rest prop hprop (htype d0 (List.mem_cons_self _ _)),
        hkept, hobs, hfold, degenerateAdjust_of_ne _ _ _ hne]
    have hdd : dedupFirst [q0] qtail = dedupFirst [] (q0 :: qtail) := by
      rw [dedupFirst_cons]
      simp
    refine ⟨⟨qtail.foldl min q0, by rw [hgl], hminmem, hminle⟩,
      ⟨qtail.foldl max q0, by rw [hgl], hmaxmem, hmaxge⟩, ?_, ?_, ?_⟩
    · rw [hgl]
      refine List.Nodup.map (fun x y h => by injection h) ?_
      exact dedupFirst_nodup qtail [q0] (List.nodup_singleton q0)
    · intro w
      rw [hgl]
      simp only [List.mem_map]
      constructor
      · rintro ⟨q, hq, rfl⟩
        refine ⟨q, ?_, rfl⟩
        rw [hobs]
        rcases (dedupFirst_mem qtail [q0] q).mp hq with h | h
        · exact (List.mem_singleton.mp h) ▸ List.mem_cons_self _ _
        · exact List.mem_cons_of_mem _ h
      · rintro ⟨q, hq, rfl⟩
        refine ⟨q, ?_, rfl⟩
        rw [hobs] at hq
        rcases List.mem_cons.mp hq with h | h
        · exact (dedupFirst_mem qtail [q0] q).mpr (Or.inl (h ▸ List.mem_singleton_self q0))
        · exact (dedupFirst_mem qtail [q0] q).mpr (Or.inr h)
    · rw [hgl, hobs]
      obtain ⟨t, ht, hs⟩ := dedupFirst_split (q0 :: qtail) []
      rw [hdd, ht]
      exact List.Sublist.map JSVal.vnum (by simpa using hs)

/-- Witness for C4 at the records `[(v 3), (v 5)]`. -/
theorem c4_getLimits_min_max_values_witness :
    (∃ m : ℚ, (getLimits [[("v", .vnum 3)], [("v", .vnum 5)]] "v").min = .vnum m ∧
      m ∈ observedValues [[("v", .vnum 3)], [("v", .vnum 5)]] "v" ∧
      ∀ x ∈ observedValues [[("v", .vnum 3)], [("v", .vnum 5)]] "v", m ≤ x) ∧
    (∃ M : ℚ, (getLimits [[("v", .vnum 3)], [("v", .vnum 5)]] "v").max = .vnum M ∧
      M ∈ observedValues [[("v", .vnum 3)], [("v", .vnum 5)]] "v" ∧
      ∀ x ∈ observedValues [[("v", .vnum 3)], [("v", .vnum 5)]] "v", x ≤ M) ∧
    (getLimits [[("v", .vnum 3)], [("v", .vnum 5)]] "v").values.Nodup ∧
    (∀ w, w ∈ (getLimits [[("v", .vnum 3)], [("v", .vnum 5)]] "v").values ↔
      ∃ q ∈ observedValues [[("v", .vnum 3)], [("v", .vnum 5)]] "v", w = JSVal.vnum q) ∧
    (getLimits [[("v", .vnum 3)], [("v", .vnum 5)]] "v").values.Sublist
      ((observedValues [[("v", .vnum 3)], [("v", .vnum 5)]] "v").map JSVal.vnum) :=
  c4_getLimits_min_max_values [[("v", .vnum 3)], [("v", .vnum 5)]] "v"
    (by decide) (by decide)
    (by
      intro r hr
      rcases List.mem_cons.mp hr with h | h
      · exact Or.inr (Or.inr ⟨3, by rw [h]; rfl⟩)
      · rcases List.mem_cons.mp h with h2 | h2
        · exact Or.inr (Or.inr ⟨5, by rw [h2]; rfl⟩)
        · exact absurd h2 (List.not_mem_nil r))
    (by decide) (by decide)

/-- Claim C5 (amended): when every observed value of the field equals one
common value `v` with `v ≠ 0`, `getLimits` returns `min = v - 1`,
`max = v` and `values = [v]` — in particular over `[5, 5, 5]` it returns
`min 4, max 5, values [5]` — so `min` is strictly below `max` and the
`max - min` divisor of `sizeInterpolate` is nonzero; when the common value
is `0` the decrement guard is falsy and `min = max = 0` (see the
counterexample). -/
theorem c5_degenerate_equal_decrement (data : List Row) (prop : String) (v : ℚ)
    (hprop : prop ≠ "")
    (htype : ∀ r ∈ data, jsTruthy (rowGet r "type") = false)
    (hall : ∀ r ∈ data, rowGet r prop = .vundef ∨ rowGet r prop = .vnull ∨
      rowGet r prop = .vnum v)
    (hv : v ≠ 0)
    (hsome : ∃ r ∈ data, rowGet r prop = .vnum v) :
    getLimits data prop
      = { min := .vnum (v - 1), max := .vnum v, values := [.vnum v] } ∧
    v - 1 < v := by
  have hobs_all : ∀ x ∈ observedValues data prop, x = v := by
    intro x hx
    obtain ⟨r, hr, hrx⟩ := (observedValues_mem data prop x).mp hx
    rcases hall r hr with h | h | h
    · exact absurd (h.symm.trans hrx) (by simp)
    · exact absurd (h.symm.trans hrx) (by simp)
    · injection h.symm.trans hrx with h'
      exact h'.symm
  have hv_mem : v ∈ observedValues data prop := (observedValues_mem data prop v).mpr hsome
  have hobs_ne : observedValues data prop ≠ [] := by
    intro h
    rw [h] at hv_mem
    exact absurd hv_mem (List.not_mem_nil v)
  obtain ⟨q0, qtail, hobs⟩ := List.exists_cons_of_ne_nil hobs_ne
  have hq0 : q0 = v := hobs_all q0 (by rw [hobs]; exact List.mem_cons_self _ _)
  have htail : ∀ x ∈ qtail, x = v := fun x hx =>
    hobs_all x (by rw [hobs]; exact List.mem_cons_of_mem _ hx)
  cases data with
  | nil => exact absurd hobs (by simp [observedValues])
  | cons d0 rest =>
    have hnum : ∀ r ∈ (d0 :: rest : List Row), rowGet r prop = .vundef ∨
        rowGet r prop = .vnull ∨ ∃ q : ℚ, rowGet r prop = .vnum q := by
      intro r hr
      rcases hall r hr with h | h | h
      · exact Or.inl h
      · exact Or.inr (Or.inl h)
      · exact Or.inr (Or.inr ⟨v, h⟩)
    have h0tail : (0:ℚ) ∉ qtail := fun h => hv ((htail 0 h).symm)
    have hminv : qtail.foldl min v = v := by
      rcases foldl_min_mem qtail v with h | h
      · exact h
      · exact htail _ h
    have hmaxv : qtail.foldl max v = v := by
      rcases foldl_max_mem qtail v with h | h
      · exact h
      · exact htail _ h
    rw [hq0] at hobs
    have hgl : getLimits (d0 :: rest) prop
        = { min := .vnum (v - 1), max := .vnum v, values := [.vnum v] } := by
      rw [getLimits_eval d0 rest prop hprop (htype d0 (List.mem_cons_self _ _)),
        keptValues_eq_map _ _ hnum, hobs, limitsFold_from_init v qtail hv h0tail,
        hminv, hmaxv, dedupFirst_const v qtail htail,
        show ([v].map JSVal.vnum) = [JSVal.vnum v] from rfl,
        degenerateAdjust_of_eq v hv]
    exact ⟨hgl, sub_lt_self v one_pos⟩

/-- Witness for C5 at the spec's example records `[5, 5, 5]`. -/
theorem c5_degenerate_equal_decrement_witness :
    getLimits [[("v", .vnum 5)], [("v", .vnum 5)], [("v", .vnum 5)]] "v"
      = { min := .vnum ((5:ℚ) - 1), max := .vnum 5, values := [.vnum 5] } ∧
    (5:ℚ) - 1 < 5 :=
  c5_degenerate_equal_decrement
    [[("v", .vnum 5)], [("v", .vnum 5)], [("v", .vnum 5)]] "v" 5
    (by decide) (by decide)
    (by
      intro r hr
      rcases List.mem_cons.mp hr with h | h
      · exact Or.inr (Or.inr (by rw [h]; rfl))
      · rcases List.mem_cons.mp h with h2 | h2
        · exact Or.inr (Or.inr (by rw [h2]; rfl))
        · rcases List.mem_cons.mp h2 with h3 | h3
          · exact Or.inr (Or.inr (by rw [h3]; rfl))
          · exact absurd h3 (List.not_mem_nil r))
    (by decide)
    ⟨[("v", .vnum 5)], List.mem_cons_self _ _, rfl⟩
